import Mathlib

/-!
Verification development for the crafty interpreter (a tree-walking
interpreter for a Lox-family language, written in Rust). The Rust sources
are shallowly embedded: `scanner.rs` as `Crafty.Scanner`, `parser.rs` as
`Crafty.Parser`, `runtime.rs` as `Crafty.Runtime`. Machine integers are
modelled as `Nat`/`Int` with explicit wrapping where the Rust types wrap;
fallible code returns `Except`/explicit outcome types.
-/

namespace Crafty

/-! ## Token model (src/scanner/token.rs) -/

/-- Mirrors `enum TokenType` of src/scanner/token.rs. -/
inductive TokenType where
  | LeftParen | RightParen | LeftBrace | RightBrace | Comma | Dot
  | Minus | Plus | Semicolon | Slash | Star
  | Bang | BangEqual | Equal | EqualEqual
  | Greater | GreaterEqual | Less | LessEqual
  | Identifier | Str | Integer | Float | Comment
  | And | Class | Else | False | Fun | For | If | Nil | Or | Print
  | Return | Super | This | True | Var | While
  | Whitespace | Newline | Unknown | Eof
  deriving DecidableEq, Repr

/-- Mirrors `struct Token` of src/scanner/token.rs. `line_number` and
`column_number` are `u32` in the source; they only ever grow by one per
consumed character, so `Nat` models them (no claim exercises `u32`
wrap-around of the counters themselves; the subtraction computing the
emitted column is modelled explicitly at its use site). -/
structure Token where
  token_type : TokenType
  lexeme : String
  line_number : Nat
  column_number : Nat
  deriving DecidableEq, Repr

/-! ## Scanner (src/scanner.rs) -/

namespace Scanner

/-- The scanner state: `src` models the `Peekable<Chars>` iterator
(`peek` = `head?`, `next` = uncons), `lexeme` the accumulated lexeme
(kept as a `List Char`; Rust's `String::push` appends), and the running
line/column counters. -/
structure ScanState where
  src : List Char
  lexeme : List Char
  line_number : Nat
  column_number : Nat
  deriving DecidableEq, Repr

/-- Byte length of the accumulated lexeme: Rust's `String::len` counts
UTF-8 bytes, `Char.utf8Size` gives each character's UTF-8 byte count. -/
def lexByteLen (l : List Char) : Nat := (l.map Char.utf8Size).sum

/-- Mirrors `Scanner::advance`: pops the next char, always bumps the
column counter (also when the iterator is exhausted), and pushes the
char onto the lexeme when present. -/
def advance (s : ScanState) : Option Char × ScanState :=
  match s.src with
  | [] => (none, { s with column_number := s.column_number + 1 })
  | c :: rest =>
      (some c, { s with
                 src := rest
                 lexeme := s.lexeme ++ [c]
                 column_number := s.column_number + 1 })

/-- The character-consuming loop shape shared by the scanner's
`while let Some(ch) = self.src_iter.peek()` loops: advance while the
peeked character satisfies `p`, stop (without consuming) at the first
character that does not, or at end of input. Arguments and results are
the `(src, lexeme, column)` components of the scanner state. -/
def takeLoopGo (p : Char → Bool) :
    List Char → List Char → Nat → List Char × List Char × Nat
  | [], lexeme, column_number => ([], lexeme, column_number)
  | c :: rest, lexeme, column_number =>
      if p c then takeLoopGo p rest (lexeme ++ [c]) (column_number + 1)
      else (c :: rest, lexeme, column_number)

/-- The `'/'`-comment loop `while self.advance() != None {}`: consumes
every remaining character of the input (including newlines; the line
counter is not touched), and the final `advance` on the exhausted
iterator still bumps the column counter. -/
def commentLoopGo : List Char → List Char → Nat → List Char × Nat
  | [], lexeme, column_number => (lexeme, column_number + 1)
  | c :: rest, lexeme, column_number =>
      commentLoopGo rest (lexeme ++ [c]) (column_number + 1)

/-- `commentLoopGo` on a scanner state. -/
def commentLoop (s : ScanState) : ScanState :=
  let r := commentLoopGo s.src s.lexeme s.column_number
  { s with src := [], lexeme := r.1, column_number := r.2 }

/-- The first loop of `consume_string`: peek; stop before a `'"'` or at
end of input, otherwise advance. -/
def stringLoop (s : ScanState) : ScanState :=
  let r := takeLoopGo (fun c => !(c = '"' : Bool)) s.src s.lexeme s.column_number
  { s with src := r.1, lexeme := r.2.1, column_number := r.2.2 }

/-- Mirrors `consume_string`: loop to the closing quote (or end of
input), then one unconditional `advance` (consuming the closing quote,
or bumping the column at end of input). -/
def consume_string (s : ScanState) : ScanState := (advance (stringLoop s)).2

/-- The digit-consuming loops inside `consume_number`: greedily consume
characters satisfying `char::is_digit(10)` (`Char.isDigit` is exactly
the ASCII digits). -/
def digitsLoop (s : ScanState) : ScanState :=
  let r := takeLoopGo Char.isDigit s.src s.lexeme s.column_number
  { s with src := r.1, lexeme := r.2.1, column_number := r.2.2 }

/-- Mirrors `consume_number`: consume digits; then if the next character
is `'.'` it is consumed unconditionally (the source's TODO notes that
`45.function()` is not handled) and the fractional digits follow, giving
`Float`; when no `'.'` follows, `Integer`. -/
def consume_number (s : ScanState) : TokenType × ScanState :=
  let s1 := digitsLoop s
  match s1.src with
  | '.' :: rest =>
      let s2 := digitsLoop { s1 with
                             src := rest
                             lexeme := s1.lexeme ++ ['.']
                             column_number := s1.column_number + 1 }
      (TokenType.Float, s2)
  | _ => (TokenType.Integer, s1)

/-- Rust's `char::is_alphabetic` tests the Unicode `Alphabetic`
property. It is modelled exactly on the ASCII range (`Char.isAlpha`);
the only non-ASCII character exercised in this development is `'€'`
(U+20AC), which is not Alphabetic in Unicode, so `false` on non-ASCII
is exact for every input appearing here. -/
def rustIsAlphabetic (c : Char) : Bool := c.isAlpha

/-- Rust's `char::is_alphanumeric` (Unicode), modelled exactly on the
ASCII range as for `rustIsAlphabetic`. -/
def rustIsAlphanumeric (c : Char) : Bool := c.isAlphanum

/-- Mirrors `consume_identifier`: greedily consume alphanumeric
characters. -/
def consume_identifier (s : ScanState) : ScanState :=
  let r := takeLoopGo rustIsAlphanumeric s.src s.lexeme s.column_number
  { s with src := r.1, lexeme := r.2.1, column_number := r.2.2 }

/-- Mirrors `identifier_token_type`: keyword lookup on the accumulated
lexeme. -/
def identifier_token_type (lexeme : List Char) : TokenType :=
  match String.mk lexeme with
  | "and" => TokenType.And
  | "class" => TokenType.Class
  | "else" => TokenType.Else
  | "false" => TokenType.False
  | "for" => TokenType.For
  | "fun" => TokenType.Fun
  | "if" => TokenType.If
  | "nil" => TokenType.Nil
  | "or" => TokenType.Or
  | "print" => TokenType.Print
  | "return" => TokenType.Return
  | "super" => TokenType.Super
  | "this" => TokenType.This
  | "true" => TokenType.True
  | "var" => TokenType.Var
  | "while" => TokenType.While
  | _ => TokenType.Identifier

/-- The two-character-operator helper: on `'!'`, `'='`, `'<'`, `'>'` the
scanner peeks; `'='` is consumed for the compound kind, otherwise the
single-character kind is emitted. -/
def twoCharOp (single compound : TokenType) (s : ScanState) :
    TokenType × ScanState :=
  match s.src with
  | '=' :: rest =>
      (compound, { s with
                   src := rest
                   lexeme := s.lexeme ++ ['=']
                   column_number := s.column_number + 1 })
  | _ => (single, s)

/-- The classification stage of `scan_token` (the first `.map` closure):
the next character has already been consumed into the state; classify it
and run the matching consumption. Returns `none` (with the column
counter still bumped, as `advance` does) when the iterator was
exhausted. -/
def scanStep (s : ScanState) : Option TokenType × ScanState :=
  match s.src with
  | [] => (none, { s with column_number := s.column_number + 1 })
  | c :: rest =>
      let s1 : ScanState :=
        { s with
          src := rest
          lexeme := s.lexeme ++ [c]
          column_number := s.column_number + 1 }
      if c = '(' then (some TokenType.LeftParen, s1)
      else if c = ')' then (some TokenType.RightParen, s1)
      else if c = Char.ofNat 123 then (some TokenType.LeftBrace, s1)
      else if c = Char.ofNat 125 then (some TokenType.RightBrace, s1)
      else if c = ',' then (some TokenType.Comma, s1)
      else if c = '.' then (some TokenType.Dot, s1)
      else if c = '-' then (some TokenType.Minus, s1)
      else if c = '+' then (some TokenType.Plus, s1)
      else if c = ';' then (some TokenType.Semicolon, s1)
      else if c = '*' then (some TokenType.Star, s1)
      else if c = '!' then
        let r := twoCharOp TokenType.Bang TokenType.BangEqual s1
        (some r.1, r.2)
      else if c = '=' then
        let r := twoCharOp TokenType.Equal TokenType.EqualEqual s1
        (some r.1, r.2)
      else if c = '<' then
        let r := twoCharOp TokenType.Less TokenType.LessEqual s1
        (some r.1, r.2)
      else if c = '>' then
        let r := twoCharOp TokenType.Greater TokenType.GreaterEqual s1
        (some r.1, r.2)
      else if c = '/' then
        match s1.src with
        | '/' :: _ => (some TokenType.Comment, commentLoop s1)
        | _ => (some TokenType.Slash, s1)
      else if c = ' ' then (some TokenType.Whitespace, s1)
      else if c = '\t' then (some TokenType.Whitespace, s1)
      else if c = '\r' then (some TokenType.Whitespace, s1)
      else if c = '\n' then (some TokenType.Newline, s1)
      else if c = '"' then (some TokenType.Str, consume_string s1)
      else if c.isDigit then
        let r := consume_number s1
        (some r.1, r.2)
      else if rustIsAlphabetic c then
        (some (identifier_token_type (consume_identifier s1).lexeme),
         consume_identifier s1)
      else (some TokenType.Unknown, s1)

/-- The emission stage of `scan_token` (the second `.map` closure).
The token's column is `column_number - lexeme.len()`: an unsigned `u32`
subtraction of the lexeme's byte length, modelled by truncating `Nat`
subtraction (Rust would panic in debug builds, wrap in release, when the
byte length exceeds the counter; the underflow condition is settled in
the theorems below). A `Newline` token bumps the line counter and resets
the column counter after the token position was captured. -/
def emitToken (tt : TokenType) (s : ScanState) : Token × ScanState :=
  let column_number := s.column_number - lexByteLen s.lexeme
  let line_number := s.line_number
  let s' :=
    if tt = TokenType.Newline then
      { s with line_number := s.line_number + 1, column_number := 0 }
    else s
  ({ token_type := tt, lexeme := String.mk s.lexeme,
     line_number := line_number, column_number := column_number },
   { s' with lexeme := [] })

/-- Mirrors `scan_token`: classification stage followed by emission
stage; also returns the updated scanner state (the Rust method mutates
`self`, and the column bump of a failed `advance` is observable in the
final `Eof` token). -/
def scan_token (s : ScanState) : Option Token × ScanState :=
  match scanStep s with
  | (none, s') => (none, s')
  | (some tt, s') =>
      let r := emitToken tt s'
      (some r.1, r.2)

/-- The `while let Some(token) = scanner.scan_token()` loop of
`scan_tokens`, with fuel (each successful `scan_token` consumes at least
one source character, so `src.length + 1` fuel always suffices; the
theorems that quantify over all sources establish this internally). -/
def scanLoop (fuel : Nat) (s : ScanState) : List Token × ScanState :=
  match fuel with
  | 0 => ([], s)
  | fuel + 1 =>
      match scan_token s with
      | (none, s') => ([], s')
      | (some t, s') =>
          let r := scanLoop fuel s'
          (t :: r.1, r.2)

/-- Mirrors `scan_tokens`: scan the whole source, then append the `Eof`
token carrying the final line/column counters. -/
def scan_tokens (source : String) : List Token :=
  let s0 : ScanState :=
    { src := source.data, lexeme := [], line_number := 1, column_number := 0 }
  let r := scanLoop (source.data.length + 1) s0
  r.1 ++ [{ token_type := TokenType.Eof, lexeme := "",
            line_number := r.2.line_number, column_number := r.2.column_number }]

end Scanner


/-! ## AST and parser (src/parser.rs) -/

/-- Mirrors `enum Expr` of src/parser.rs. Operators are embedded as
expressions (`Expr::Operator`) exactly as in the source. -/
inductive Expr where
  | Grouping (e : Expr)
  | Binary (lhs op rhs : Expr)
  | Unary (op rhs : Expr)
  | Operator (tt : TokenType) (lexeme : String)
  | BoolLiteral (b : Bool)
  | StringLiteral (s : String)
  | IntegerLiteral (s : String)
  | FloatLiteral (s : String)
  | Logical (lhs : Expr) (tt : TokenType) (rhs : Expr)
  | Variable (t : Token)
  | Assign (t : Token) (e : Expr)
  deriving Repr

/-- Mirrors `enum Statement` of src/parser.rs. -/
inductive Statement where
  | Expression (e : Expr)
  | If (cond : Expr) (then_branch : Statement) (else_branch : Option Statement)
  | Print (e : Expr)
  | Var (name : Token) (initializer : Option Expr)
  | While (cond : Expr) (body : Statement)
  | Block (stmts : List Statement)
  deriving Repr

/-- Mirrors `struct ParseError`. -/
structure ParseError where
  message : String
  deriving DecidableEq, Repr

/-- Rust's derived `Debug` name of a `TokenType`, used in the
`consume` error message (`format!("expected {:?} after expression", ...)`). -/
def ttDebug : TokenType → String
  | .LeftParen => "LeftParen" | .RightParen => "RightParen"
  | .LeftBrace => "LeftBrace" | .RightBrace => "RightBrace"
  | .Comma => "Comma" | .Dot => "Dot" | .Minus => "Minus" | .Plus => "Plus"
  | .Semicolon => "Semicolon" | .Slash => "Slash" | .Star => "Star"
  | .Bang => "Bang" | .BangEqual => "BangEqual" | .Equal => "Equal"
  | .EqualEqual => "EqualEqual" | .Greater => "Greater"
  | .GreaterEqual => "GreaterEqual" | .Less => "Less"
  | .LessEqual => "LessEqual" | .Identifier => "Identifier" | .Str => "Str"
  | .Integer => "Integer" | .Float => "Float" | .Comment => "Comment"
  | .And => "And" | .Class => "Class" | .Else => "Else" | .False => "False"
  | .Fun => "Fun" | .For => "For" | .If => "If" | .Nil => "Nil" | .Or => "Or"
  | .Print => "Print" | .Return => "Return" | .Super => "Super"
  | .This => "This" | .True => "True" | .Var => "Var" | .While => "While"
  | .Whitespace => "Whitespace" | .Newline => "Newline"
  | .Unknown => "Unknown" | .Eof => "Eof"

namespace Parser

/-- Parser cursor state: `rest` models the unread part of the token
iterator, `current`/`previous` the two cursor slots of `struct Parser`. -/
structure PState where
  rest : List Token
  current : Option Token
  previous : Option Token
  deriving DecidableEq, Repr

/-- The parser computation shape: Rust methods mutate `self` and return
`Result<T, ParseError>`, modelled as a state-passing function. -/
def PM (α : Type) := PState → Except ParseError α × PState

instance : Monad PM where
  pure a := fun s => (.ok a, s)
  bind ma f := fun s =>
    match ma s with
    | (.ok a, s') => f a s'
    | (.error e, s') => (.error e, s')

/-- State transition of `Parser::advance`: `previous = current;
current = iter.next()`. -/
def advState (s : PState) : PState :=
  { rest := s.rest.tail, current := s.rest.head?, previous := s.current }

/-- Mirrors `Parser::advance` (returns the new current token). -/
def advanceP : PM (Option Token) := fun s =>
  (.ok (advState s).current, advState s)

/-- The Boolean of `Parser::is_at_end`. -/
def isAtEndB (s : PState) : Bool :=
  match s.current with
  | some token => token.token_type = TokenType.Eof
  | none => true

/-- The Boolean of `Parser::check` (does not advance). -/
def checkB (tt : TokenType) (s : PState) : Bool :=
  match s.current with
  | some token => token.token_type = tt
  | none => false

/-- Mirrors `Parser::error`: formats the message with the offending
token's position, or the end-of-file form. -/
def mkError (message : String) (s : PState) : ParseError :=
  match s.current with
  | some token =>
      if token.token_type = TokenType.Eof then
        { message := message ++ " at end of file " ++
            toString token.line_number ++ ":" ++ toString token.column_number }
      else
        { message := message ++ " at '" ++ token.lexeme ++ "' line " ++
            toString token.line_number ++ ":" ++ toString token.column_number }
  | none => { message := "unexpected EOF: " ++ message }

/-- Raise a `ParseError` built by `Parser::error` (state unchanged). -/
def throwP (message : String) : PM α := fun s =>
  (.error (mkError message s), s)

/-- Mirrors `Parser::token_match`: advance and return `true` when the
current token's type is among the given ones, else return `false`
without advancing. -/
def token_match (tts : List TokenType) : PM Bool := fun s =>
  match s.current with
  | some token =>
      if token.token_type ∈ tts then (.ok true, advState s)
      else (.ok false, s)
  | none => (.ok false, s)

/-- Mirrors `Parser::consume`: advance past a token of the expected
type, or fail with "expected <kind> after expression". -/
def consume (tt : TokenType) : PM Token := fun s =>
  if checkB tt s then
    match s.current with
    | some token => (.ok token, advState s)
    | none => (.error (mkError "advanced past end on token check" s), advState s)
  else
    (.error (mkError ("expected " ++ ttDebug tt ++ " after expression") s), s)

/-- Mirrors `Parser::check` as a computation. -/
def checkM (tt : TokenType) : PM Bool := fun s => (.ok (checkB tt s), s)

/-- Mirrors `Parser::previous_token`: wrap the previous token as an
`Expr::Operator`. -/
def previous_token : PM Expr := fun s =>
  match s.previous with
  | some token => (.ok (Expr.Operator token.token_type token.lexeme), s)
  | none => (.error (mkError "Internal Parser Error: No previous token found" s), s)

/-- Builds an expression from the previous token in `primary` (the
literal and identifier cases). -/
def fromPrevious (f : Token → Expr) : PM Expr := fun s =>
  match s.previous with
  | some token => (.ok (f token), s)
  | none => (.error (mkError "I DONT KNOW WHAT HAPPENED" s), s)

/-- Fuel-exhaustion marker. The Rust recursion is unbounded; fuel makes
the embedding total. Theorems about parse failure quantify over all
fuel values, and concrete runs use ample fuel, so this branch carries no
semantic weight. -/
def fuelError : PM α := fun s => (.error { message := "out of fuel" }, s)

mutual

/-- Mirrors `Parser::declaration`. -/
def declaration : Nat → PM Statement
  | 0 => fuelError
  | fuel + 1 => do
      let m ← token_match [TokenType.Var]
      if m then var_declaration fuel else statement fuel

/-- Mirrors `Parser::var_declaration`. -/
def var_declaration : Nat → PM Statement
  | 0 => fuelError
  | fuel + 1 => do
      let name ← consume TokenType.Identifier
      let m ← token_match [TokenType.Equal]
      let initializer ←
        if m then do
          let e ← expression fuel
          pure (some e)
        else pure none
      let _ ← consume TokenType.Semicolon
      pure (Statement.Var name initializer)

/-- Mirrors `Parser::statement`. -/
def statement : Nat → PM Statement
  | 0 => fuelError
  | fuel + 1 => do
      let m ← token_match [TokenType.For]
      if m then for_statement fuel else do
      let m ← token_match [TokenType.If]
      if m then if_statement fuel else do
      let m ← token_match [TokenType.Print]
      if m then print_statement fuel else do
      let m ← token_match [TokenType.While]
      if m then while_statement fuel else do
      let m ← token_match [TokenType.LeftBrace]
      if m then do
        let stmts ← block fuel
        pure (Statement.Block stmts)
      else expression_statement fuel

/-- Mirrors `Parser::for_statement` (desugars to `While`). -/
def for_statement : Nat → PM Statement
  | 0 => fuelError
  | fuel + 1 => do
      let _ ← consume TokenType.LeftParen
      let m ← token_match [TokenType.Semicolon]
      let initializer ←
        if m then pure none
        else do
          let mv ← token_match [TokenType.Var]
          if mv then do
            let d ← var_declaration fuel
            pure (some d)
          else do
            let d ← expression_statement fuel
            pure (some d)
      let chk ← checkM TokenType.Semicolon
      let condition ←
        if !chk then expression fuel
        else pure (Expr.BoolLiteral true)
      let _ ← consume TokenType.Semicolon
      let chk2 ← checkM TokenType.RightParen
      let increment ←
        if !chk2 then do
          let e ← expression fuel
          pure (some e)
        else pure none
      let _ ← consume TokenType.RightParen
      let body ← statement fuel
      let body1 :=
        match increment with
        | some e => Statement.Block [body, Statement.Expression e]
        | none => body
      let body2 := Statement.While condition body1
      let body3 :=
        match initializer with
        | some st => Statement.Block [st, body2]
        | none => body2
      pure body3

/-- Mirrors `Parser::if_statement`. -/
def if_statement : Nat → PM Statement
  | 0 => fuelError
  | fuel + 1 => do
      let _ ← consume TokenType.LeftParen
      let condition ← expression fuel
      let _ ← consume TokenType.RightParen
      let then_branch ← statement fuel
      let m ← token_match [TokenType.Else]
      let else_branch ←
        if m then do
          let st ← statement fuel
          pure (some st)
        else pure none
      pure (Statement.If condition then_branch else_branch)

/-- Mirrors `Parser::while_statement`. -/
def while_statement : Nat → PM Statement
  | 0 => fuelError
  | fuel + 1 => do
      let _ ← consume TokenType.LeftParen
      let condition ← expression fuel
      let _ ← consume TokenType.RightParen
      let body ← statement fuel
      pure (Statement.While condition body)

/-- The declaration loop of `Parser::block`. -/
def blockLoop : Nat → List Statement → PM (List Statement)
  | 0, _ => fuelError
  | fuel + 1, acc => fun s =>
      if !(checkB TokenType.RightBrace s) && !(isAtEndB s) then
        (do
          let d ← declaration fuel
          blockLoop fuel (acc ++ [d])) s
      else (.ok acc, s)

/-- Mirrors `Parser::block`. -/
def block : Nat → PM (List Statement)
  | 0 => fuelError
  | fuel + 1 => do
      let statements ← blockLoop fuel []
      let _ ← consume TokenType.RightBrace
      pure statements

/-- Mirrors `Parser::print_statement`. -/
def print_statement : Nat → PM Statement
  | 0 => fuelError
  | fuel + 1 => do
      let value ← expression fuel
      let _ ← consume TokenType.Semicolon
      pure (Statement.Print value)

/-- Mirrors `Parser::expression_statement`. -/
def expression_statement : Nat → PM Statement
  | 0 => fuelError
  | fuel + 1 => do
      let value ← expression fuel
      let _ ← consume TokenType.Semicolon
      pure (Statement.Expression value)

/-- Mirrors `Parser::expression`. -/
def expression : Nat → PM Expr
  | 0 => fuelError
  | fuel + 1 => assignment fuel

/-- Mirrors `Parser::assignment`. -/
def assignment : Nat → PM Expr
  | 0 => fuelError
  | fuel + 1 => do
      let expr ← or fuel
      let m ← token_match [TokenType.Equal]
      if m then do
        let value ← assignment fuel
        match expr with
        | Expr.Variable token => pure (Expr.Assign token value)
        | _ => throwP "Invalid assignment target."
      else pure expr

/-- Mirrors `Parser::or`. -/
def or : Nat → PM Expr
  | 0 => fuelError
  | fuel + 1 => do
      let expr ← and fuel
      orLoop fuel expr

/-- The `while` loop of `Parser::or`. -/
def orLoop : Nat → Expr → PM Expr
  | 0, _ => fuelError
  | fuel + 1, expr => do
      let m ← token_match [TokenType.Or]
      if m then do
        let right ← and fuel
        orLoop fuel (Expr.Logical expr TokenType.Or right)
      else pure expr

/-- Mirrors `Parser::and`. -/
def and : Nat → PM Expr
  | 0 => fuelError
  | fuel + 1 => do
      let expr ← equality fuel
      andLoop fuel expr

/-- The `while` loop of `Parser::and`. -/
def andLoop : Nat → Expr → PM Expr
  | 0, _ => fuelError
  | fuel + 1, expr => do
      let m ← token_match [TokenType.And]
      if m then do
        let right ← equality fuel
        andLoop fuel (Expr.Logical expr TokenType.And right)
      else pure expr

/-- Mirrors `Parser::equality`. -/
def equality : Nat → PM Expr
  | 0 => fuelError
  | fuel + 1 => do
      let expr ← comparison fuel
      equalityLoop fuel expr

/-- The `while` loop of `Parser::equality`. -/
def equalityLoop : Nat → Expr → PM Expr
  | 0, _ => fuelError
  | fuel + 1, expr => do
      let m ← token_match [TokenType.BangEqual, TokenType.EqualEqual]
      if m then do
        let operator ← previous_token
        let right ← comparison fuel
        equalityLoop fuel (Expr.Binary expr operator right)
      else pure expr

/-- Mirrors `Parser::comparison`. -/
def comparison : Nat → PM Expr
  | 0 => fuelError
  | fuel + 1 => do
      let expr ← addition fuel
      comparisonLoop fuel expr

/-- The `while` loop of `Parser::comparison`. -/
def comparisonLoop : Nat → Expr → PM Expr
  | 0, _ => fuelError
  | fuel + 1, expr => do
      let m ← token_match [TokenType.Greater, TokenType.GreaterEqual,
                           TokenType.Less, TokenType.LessEqual]
      if m then do
        let operator ← previous_token
        let right ← addition fuel
        comparisonLoop fuel (Expr.Binary expr operator right)
      else pure expr

/-- Mirrors `Parser::addition`. -/
def addition : Nat → PM Expr
  | 0 => fuelError
  | fuel + 1 => do
      let expr ← multiplication fuel
      additionLoop fuel expr

/-- The `while` loop of `Parser::addition`. -/
def additionLoop : Nat → Expr → PM Expr
  | 0, _ => fuelError
  | fuel + 1, expr => do
      let m ← token_match [TokenType.Minus, TokenType.Plus]
      if m then do
        let operator ← previous_token
        let right ← multiplication fuel
        additionLoop fuel (Expr.Binary expr operator right)
      else pure expr

/-- Mirrors `Parser::multiplication`. -/
def multiplication : Nat → PM Expr
  | 0 => fuelError
  | fuel + 1 => do
      let expr ← unary fuel
      multiplicationLoop fuel expr

/-- The `while` loop of `Parser::multiplication`. -/
def multiplicationLoop : Nat → Expr → PM Expr
  | 0, _ => fuelError
  | fuel + 1, expr => do
      let m ← token_match [TokenType.Slash, TokenType.Star]
      if m then do
        let operator ← previous_token
        let right ← unary fuel
        multiplicationLoop fuel (Expr.Binary expr operator right)
      else pure expr

/-- Mirrors `Parser::unary`. -/
def unary : Nat → PM Expr
  | 0 => fuelError
  | fuel + 1 => do
      let m ← token_match [TokenType.Bang, TokenType.Minus]
      if m then do
        let operator ← previous_token
        let right ← unary fuel
        pure (Expr.Unary operator right)
      else primary fuel

/-- Mirrors `Parser::primary`. -/
def primary : Nat → PM Expr
  | 0 => fuelError
  | fuel + 1 => do
      let m ← token_match [TokenType.False]
      if m then pure (Expr.BoolLiteral false) else do
      let m ← token_match [TokenType.True]
      if m then pure (Expr.BoolLiteral true) else do
      let m ← token_match [TokenType.Integer]
      if m then fromPrevious (fun token => Expr.IntegerLiteral token.lexeme)
      else do
      let m ← token_match [TokenType.Float]
      if m then fromPrevious (fun token => Expr.FloatLiteral token.lexeme)
      else do
      let m ← token_match [TokenType.Str]
      if m then fromPrevious (fun token => Expr.StringLiteral token.lexeme)
      else do
      let m ← token_match [TokenType.Identifier]
      if m then fromPrevious (fun token => Expr.Variable token)
      else do
      let m ← token_match [TokenType.LeftParen]
      if m then do
        let e ← expression fuel
        let _ ← consume TokenType.RightParen
        pure (Expr.Grouping e)
      else throwP "Expected literal"

end

/-- The `while !self.is_at_end()` loop of `Parser::parse`. -/
def parseLoop : Nat → List Statement → PM (List Statement)
  | 0, _ => fuelError
  | fuel + 1, acc => fun s =>
      if isAtEndB s then (.ok acc, s)
      else
        (do
          let d ← declaration fuel
          parseLoop fuel (acc ++ [d])) s

/-- Mirrors `Parser::parse`: one initial `advance`, then the
declaration loop. -/
def parse (fuel : Nat) : PM (List Statement) := fun s =>
  parseLoop fuel [] (advState s)

/-- The parser's entry state (`current`/`previous` start empty, the
iterator holds all tokens). -/
def initPState (ts : List Token) : PState :=
  { rest := ts, current := none, previous := none }

/-- Run the parser on a token list, keeping only the result. -/
def parseTokens (fuel : Nat) (ts : List Token) :
    Except ParseError (List Statement) :=
  (parse fuel (initPState ts)).1

end Parser


/-! ## Runtime (src/runtime.rs) -/

namespace Runtime

/-- Model of an IEEE-754 binary64 value as manipulated by the
evaluator. Finite values are carried as exact rationals: every float
operation a claim exercises (casting a small integer, dividing by a
zero divisor) is exact in IEEE-754. Rounding of inexact results is not
modelled, and no theorem below depends on a rounded value. -/
inductive F64 where
  | finite (q : Rat)
  | inf
  | negInf
  | nan
  deriving DecidableEq, Repr

/-- Rust's `as f64` cast of an `i64` value; exact for magnitudes below
`2^53`, which covers every integer the claims exercise. -/
def intToF64 (n : Int) : F64 := .finite n

/-- IEEE-754 negation. -/
def f64Neg : F64 → F64
  | .finite a => .finite (-a)
  | .inf => .negInf
  | .negInf => .inf
  | .nan => .nan

/-- IEEE-754 division. The zero-divisor cases are exact per IEEE-754:
`x / 0.0` is a signed infinity for nonzero finite `x` and NaN for
`x = 0.0`. (The model's `finite 0` stands for `+0.0`; a negative-zero
divisor does not arise in this development.) -/
def f64Div : F64 → F64 → F64
  | .nan, _ => .nan
  | _, .nan => .nan
  | .finite a, .finite b =>
      if b = 0 then
        if a = 0 then .nan
        else if 0 < a then .inf
        else .negInf
      else .finite (a / b)
  | .finite _, .inf => .finite 0
  | .finite _, .negInf => .finite 0
  | .inf, .finite b => if b < 0 then .negInf else .inf
  | .negInf, .finite b => if b < 0 then .inf else .negInf
  | .inf, .inf => .nan
  | .inf, .negInf => .nan
  | .negInf, .inf => .nan
  | .negInf, .negInf => .nan

/-- IEEE-754 addition (infinities of opposite sign give NaN). -/
def f64Add : F64 → F64 → F64
  | .nan, _ => .nan
  | _, .nan => .nan
  | .finite a, .finite b => .finite (a + b)
  | .finite _, .inf => .inf
  | .finite _, .negInf => .negInf
  | .inf, .finite _ => .inf
  | .negInf, .finite _ => .negInf
  | .inf, .inf => .inf
  | .negInf, .negInf => .negInf
  | .inf, .negInf => .nan
  | .negInf, .inf => .nan

/-- IEEE-754 subtraction. -/
def f64Sub (a b : F64) : F64 := f64Add a (f64Neg b)

/-- IEEE-754 multiplication (infinity times zero gives NaN). -/
def f64Mul : F64 → F64 → F64
  | .nan, _ => .nan
  | _, .nan => .nan
  | .finite a, .finite b => .finite (a * b)
  | .finite a, .inf => if a = 0 then .nan else if 0 < a then .inf else .negInf
  | .finite a, .negInf => if a = 0 then .nan else if 0 < a then .negInf else .inf
  | .inf, .finite b => if b = 0 then .nan else if 0 < b then .inf else .negInf
  | .negInf, .finite b => if b = 0 then .nan else if 0 < b then .negInf else .inf
  | .inf, .inf => .inf
  | .negInf, .negInf => .inf
  | .inf, .negInf => .negInf
  | .negInf, .inf => .negInf

/-- IEEE-754 `<` (false whenever a NaN is involved). -/
def f64Lt : F64 → F64 → Bool
  | .nan, _ => false
  | _, .nan => false
  | .finite a, .finite b => a < b
  | .finite _, .inf => true
  | .finite _, .negInf => false
  | .inf, _ => false
  | .negInf, .negInf => false
  | .negInf, _ => true

/-- IEEE-754 `==` (false whenever a NaN is involved). -/
def f64Eq : F64 → F64 → Bool
  | .nan, _ => false
  | _, .nan => false
  | .finite a, .finite b => a == b
  | .inf, .inf => true
  | .negInf, .negInf => true
  | _, _ => false

/-- IEEE-754 `<=`. -/
def f64Le (a b : F64) : Bool := f64Lt a b || f64Eq a b

/-- IEEE-754 `>`. -/
def f64Gt (a b : F64) : Bool := f64Lt b a

/-- IEEE-754 `>=`. -/
def f64Ge (a b : F64) : Bool := f64Le b a

/-- IEEE-754 `!=` (true whenever a NaN is involved). -/
def f64Ne : F64 → F64 → Bool
  | .nan, _ => true
  | _, .nan => true
  | a, b => !(f64Eq a b)

/-- Mirrors `enum Object` of src/runtime.rs; `Integer` holds an `i64`
(an `Int` kept in range by the wrapping arithmetic below). -/
inductive Object where
  | Nil
  | Float (v : F64)
  | Integer (n : Int)
  | Boolean (b : Bool)
  | StringLiteral (s : String)
  deriving DecidableEq, Repr

/-- Mirrors `enum Operator` of src/runtime.rs. -/
inductive Operator where
  | Bang | BangEqual | Equal | EqualEqual | Greater | GreaterEqual
  | Less | LessEqual | Add | Subtract | Divide | Multiply
  deriving DecidableEq, Repr

/-- Rust's derived `Debug` name of an `Operator` (error messages). -/
def opDebug : Operator → String
  | .Bang => "Bang" | .BangEqual => "BangEqual" | .Equal => "Equal"
  | .EqualEqual => "EqualEqual" | .Greater => "Greater"
  | .GreaterEqual => "GreaterEqual" | .Less => "Less"
  | .LessEqual => "LessEqual" | .Add => "Add" | .Subtract => "Subtract"
  | .Divide => "Divide" | .Multiply => "Multiply"

/-- Approximation of Rust's `Debug` output for an `f64` payload (only
ever interpolated into error-message strings; no claim inspects such a
message's text). -/
def f64Debug : F64 → String
  | .finite q => toString q
  | .inf => "inf"
  | .negInf => "-inf"
  | .nan => "NaN"

/-- Rust's derived `Debug` of an `Object` (error messages; the float
payload rendering is approximate, see `f64Debug`). -/
def objDebug : Object → String
  | .Nil => "Nil"
  | .Float v => "Float(" ++ f64Debug v ++ ")"
  | .Integer n => "Integer(" ++ toString n ++ ")"
  | .Boolean b => "Boolean(" ++ (if b then "true" else "false") ++ ")"
  | .StringLiteral s => "StringLiteral(" ++ "\"" ++ s ++ "\"" ++ ")"

/-- Two's-complement wrap of an `i64` arithmetic result, the Rust
release-profile behavior (a debug build would panic on overflow; the
spec leaves integer overflow implementation-defined). -/
def wrap64 (n : Int) : Int := (n + 2 ^ 63) % 2 ^ 64 - 2 ^ 63

/-- Digit-string value. -/
def digitsToNat (l : List Char) : Nat :=
  l.foldl (fun acc c => acc * 10 + (c.toNat - 48)) 0

/-- Rust's `str::parse::<i64>`: an optional single sign, then one or
more ASCII digits and nothing else; the value must fit in `i64`. -/
def rustParseI64 (s : String) : Option Int :=
  let signed : Int × List Char :=
    match s.data with
    | '+' :: rest => (1, rest)
    | '-' :: rest => (-1, rest)
    | l => (1, l)
  if signed.2 = [] then none
  else if signed.2.all Char.isDigit then
    let v : Int := signed.1 * (digitsToNat signed.2 : Nat)
    if -(2 ^ 63) ≤ v ∧ v ≤ 2 ^ 63 - 1 then some v else none
  else none

/-- Rust's `str::parse::<f64>` restricted to the decimal forms the
scanner can produce (`digits`, `digits.digits`, `digits.`): an optional
sign, an integer part, an optional fraction. Exponents and the special
spellings (`inf`, `NaN`, ...) that Rust also accepts are not modelled;
no claim exercises them. The value is exact as a rational (IEEE
rounding not modelled, see `F64`). -/
def rustParseF64 (s : String) : Option F64 :=
  let signed : Rat × List Char :=
    match s.data with
    | '+' :: rest => (1, rest)
    | '-' :: rest => (-1, rest)
    | l => (1, l)
  let intPart := signed.2.takeWhile Char.isDigit
  let rest1 := signed.2.dropWhile Char.isDigit
  match rest1 with
  | [] =>
      if intPart = [] then none
      else some (.finite (signed.1 * (digitsToNat intPart : Nat)))
  | '.' :: fracRest =>
      let fracPart := fracRest.takeWhile Char.isDigit
      let rest2 := fracRest.dropWhile Char.isDigit
      if rest2 = [] ∧ ¬(intPart = [] ∧ fracPart = []) then
        some (.finite (signed.1 *
          ((digitsToNat intPart : Nat) +
            (digitsToNat fracPart : Nat) / ((10 : Rat) ^ fracPart.length))))
      else none
  | _ => none

/-- One scope: `HashMap<String, Object>` modelled as an association
list whose `insert` replaces an existing key. The claims never observe
iteration order, which is the only visible difference from a hash
map. -/
abbrev Env := List (String × Object)

/-- `HashMap::insert`. -/
def envInsert (name : String) (obj : Object) : Env → Env
  | [] => [(name, obj)]
  | (k, v) :: rest =>
      if k = name then (k, obj) :: rest else (k, v) :: envInsert name obj rest

/-- `HashMap::get`. -/
def envGet (name : String) : Env → Option Object
  | [] => none
  | (k, v) :: rest => if k = name then some v else envGet name rest

/-- Evaluator state: the environment stack plus the lines printed to
standard output so far. Rust pushes/pops scopes at the `Vec`'s end and
`iter().rev()` walks from the end; the model keeps the innermost scope
at the head of the list, so push = cons, pop = tail, innermost-first
search = list order. -/
structure RTState where
  environments : List Env
  output : List String
  deriving DecidableEq, Repr

/-- The outcome of evaluating one AST node. `ok`/`err` model
`Result<Object, RuntimeError>`. `panicked` models a Rust panic
(`Option::unwrap` on `None`): it unwinds without executing any further
code of the evaluator, in particular without running the explicit
`environments.pop()` of `execute_block`. `unimplArm` marks an AST
constructor for which the source `match` has no arm (`Statement::If`,
`Statement::While`, `Expr::Logical`): those matches in runtime.rs are
non-exhaustive, so the code defines no behavior there (rustc rejects
the file with E0004 when the module is compiled; main.rs never
declares `mod runtime`, which is why the crate still builds). -/
inductive EvalResult where
  | ok (o : Object)
  | err (message : String)
  | panicked
  | unimplArm
  deriving DecidableEq, Repr

/-- Discriminates the `Err` outcome. -/
def EvalResult.isErr : EvalResult → Bool
  | .err _ => true
  | _ => false

/-- The `?` operator on an evaluation step: continue on `Ok`, propagate
everything else. -/
def eseq (r : EvalResult × RTState)
    (f : Object → RTState → EvalResult × RTState) : EvalResult × RTState :=
  match r with
  | (.ok o, σ) => f o σ
  | (other, σ) => (other, σ)

/-- Mirrors `define_variable`: insert into the innermost scope; with no
scopes present it does nothing (the source's TODO arm). -/
def define_variable (name : String) (obj : Object) (σ : RTState) : RTState :=
  match σ.environments with
  | [] => σ
  | e :: rest => { σ with environments := envInsert name obj e :: rest }

/-- Innermost-first lookup over the scope stack. -/
def lookupEnvs (name : String) : List Env → Option Object
  | [] => none
  | e :: rest =>
      match envGet name e with
      | some o => some o
      | none => lookupEnvs name rest

/-- Mirrors `get_variable`. -/
def get_variable (name : String) (σ : RTState) : EvalResult :=
  match lookupEnvs name σ.environments with
  | some o => .ok o
  | none => .err ("Undefined variable '" ++ name ++ "'.")

/-- Innermost-first assignment: overwrite in the first scope containing
the name. -/
def assignEnvs (name : String) (obj : Object) : List Env → Option (List Env)
  | [] => none
  | e :: rest =>
      match envGet name e with
      | some _ => some (envInsert name obj e :: rest)
      | none => (assignEnvs name obj rest).map (e :: ·)

/-- Mirrors `assign_variable`. -/
def assign_variable (name : String) (obj : Object) (σ : RTState) :
    EvalResult × RTState :=
  match assignEnvs name obj σ.environments with
  | some envs => (.ok obj, { σ with environments := envs })
  | none => (.err ("Undefined variable '" ++ name ++ "'."), σ)

/-- Mirrors `operator_from_expression`. -/
def operator_from_expression : Expr → Except String Operator
  | Expr.Operator tt _ =>
      match tt with
      | TokenType.Bang => .ok .Bang
      | TokenType.BangEqual => .ok .BangEqual
      | TokenType.Equal => .ok .Equal
      | TokenType.EqualEqual => .ok .EqualEqual
      | TokenType.Greater => .ok .Greater
      | TokenType.GreaterEqual => .ok .GreaterEqual
      | TokenType.Less => .ok .Less
      | TokenType.LessEqual => .ok .LessEqual
      | TokenType.Minus => .ok .Subtract
      | TokenType.Plus => .ok .Add
      | TokenType.Star => .ok .Multiply
      | TokenType.Slash => .ok .Divide
      | _ => .error ("Received unknown operator " ++ ttDebug tt)
  | _ => .error "Received non-operator expression in operator expression field"

/-- Mirrors `visit_expr` of the `Visitor` impl for `ExprEvaluator`.
`Expr::Logical` has no arm in the source match (see `EvalResult`). -/
def visit_expr : Expr → RTState → EvalResult × RTState
  | Expr.Assign token e, σ =>
      eseq (visit_expr e σ) fun result σ1 =>
        eseq (assign_variable token.lexeme result σ1) fun _ σ2 =>
          (.ok result, σ2)
  | Expr.Variable token, σ => (get_variable token.lexeme σ, σ)
  | Expr.BoolLiteral b, σ => (.ok (.Boolean b), σ)
  | Expr.StringLiteral n, σ => (.ok (.StringLiteral n), σ)
  | Expr.IntegerLiteral n, σ =>
      (match rustParseI64 n with
       | some v => .ok (.Integer v)
       | none => .panicked, σ)
  | Expr.FloatLiteral n, σ =>
      (match rustParseF64 n with
       | some v => .ok (.Float v)
       | none => .panicked, σ)
  | Expr.Operator tt n, σ =>
      (.err ("Received operator " ++ ttDebug tt ++ " " ++ n ++
        " outside of expression"), σ)
  | Expr.Unary operator rhs, σ =>
      (match operator_from_expression operator with
       | .error m => (.err m, σ)
       | .ok Operator.Bang =>
          eseq (visit_expr rhs σ) fun result σ1 =>
            match result with
            | .Boolean b => (.ok (.Boolean !b), σ1)
            | r => (.err ("Bang operator received non-boolean expression: " ++
                objDebug r), σ1)
       | .ok Operator.Subtract =>
          eseq (visit_expr rhs σ) fun result σ1 =>
            match result with
            | .Float f => (.ok (.Float (f64Neg f)), σ1)
            | .Integer n => (.ok (.Integer (wrap64 (-n))), σ1)
            | r => (.err ("Unary subtract operator received non-number expression: "
                ++ objDebug r), σ1)
       | .ok op => (.err ("Invalid unary opeartor " ++ opDebug op), σ))
  | Expr.Binary lhs operator rhs, σ =>
      (match operator_from_expression operator with
       | .error m => (.err m, σ)
       | .ok op =>
          match op with
          | Operator.BangEqual =>
              eseq (visit_expr lhs σ) fun lv σ1 =>
              eseq (visit_expr rhs σ1) fun rv σ2 =>
              ((match lv, rv with
                | .Float a, .Float b => .ok (.Boolean (f64Ne a b))
                | .Integer a, .Integer b => .ok (.Boolean (a != b))
                | .Integer a, .Float b => .ok (.Boolean (f64Ne (intToF64 a) b))
                | .Float a, .Integer b => .ok (.Boolean (f64Ne a (intToF64 b)))
                | .Boolean a, .Boolean b => .ok (.Boolean (a != b))
                | .StringLiteral a, .StringLiteral b => .ok (.Boolean (a != b))
                | la, rb => .err ("lhs is " ++ objDebug la ++ " rhs is " ++
                    objDebug rb ++ " cannot compare using !=")), σ2)
          | Operator.EqualEqual =>
              eseq (visit_expr lhs σ) fun lv σ1 =>
              eseq (visit_expr rhs σ1) fun rv σ2 =>
              ((match lv, rv with
                | .Float a, .Float b => .ok (.Boolean (f64Eq a b))
                | .Integer a, .Integer b => .ok (.Boolean (a == b))
                | .Integer a, .Float b => .ok (.Boolean (f64Eq (intToF64 a) b))
                | .Float a, .Integer b => .ok (.Boolean (f64Eq a (intToF64 b)))
                | .Boolean a, .Boolean b => .ok (.Boolean (a == b))
                | .StringLiteral a, .StringLiteral b => .ok (.Boolean (a == b))
                | la, rb => .err ("lhs is " ++ objDebug la ++ " rhs is " ++
                    objDebug rb ++ " cannot compare using ==")), σ2)
          | Operator.Greater =>
              eseq (visit_expr lhs σ) fun lv σ1 =>
              eseq (visit_expr rhs σ1) fun rv σ2 =>
              ((match lv, rv with
                | .Float a, .Float b => .ok (.Boolean (f64Gt a b))
                | .Integer a, .Integer b => .ok (.Boolean (a > b : Bool))
                | .Integer a, .Float b => .ok (.Boolean (f64Gt (intToF64 a) b))
                | .Float a, .Integer b => .ok (.Boolean (f64Gt a (intToF64 b)))
                | la, rb => .err ("lhs is " ++ objDebug la ++ " rhs is " ++
                    objDebug rb ++ " cannot compare using >")), σ2)
          | Operator.GreaterEqual =>
              eseq (visit_expr lhs σ) fun lv σ1 =>
              eseq (visit_expr rhs σ1) fun rv σ2 =>
              ((match lv, rv with
                | .Float a, .Float b => .ok (.Boolean (f64Ge a b))
                | .Integer a, .Integer b => .ok (.Boolean (a ≥ b : Bool))
                | .Integer a, .Float b => .ok (.Boolean (f64Ge (intToF64 a) b))
                | .Float a, .Integer b => .ok (.Boolean (f64Ge a (intToF64 b)))
                | la, rb => .err ("lhs is " ++ objDebug la ++ " rhs is " ++
                    objDebug rb ++ " cannot compare using >=")), σ2)
          | Operator.Less =>
              eseq (visit_expr lhs σ) fun lv σ1 =>
              eseq (visit_expr rhs σ1) fun rv σ2 =>
              ((match lv, rv with
                | .Float a, .Float b => .ok (.Boolean (f64Lt a b))
                | .Integer a, .Integer b => .ok (.Boolean (a < b : Bool))
                | .Integer a, .Float b => .ok (.Boolean (f64Lt (intToF64 a) b))
                | .Float a, .Integer b => .ok (.Boolean (f64Lt a (intToF64 b)))
                | la, rb => .err ("lhs is " ++ objDebug la ++ " rhs is " ++
                    objDebug rb ++ " cannot compare using <")), σ2)
          | Operator.LessEqual =>
              eseq (visit_expr lhs σ) fun lv σ1 =>
              eseq (visit_expr rhs σ1) fun rv σ2 =>
              ((match lv, rv with
                | .Float a, .Float b => .ok (.Boolean (f64Le a b))
                | .Integer a, .Integer b => .ok (.Boolean (a ≤ b : Bool))
                | .Integer a, .Float b => .ok (.Boolean (f64Le (intToF64 a) b))
                | .Float a, .Integer b => .ok (.Boolean (f64Le a (intToF64 b)))
                | la, rb => .err ("lhs is " ++ objDebug la ++ " rhs is " ++
                    objDebug rb ++ " cannot compare using <=")), σ2)
          | Operator.Add =>
              eseq (visit_expr lhs σ) fun lv σ1 =>
              eseq (visit_expr rhs σ1) fun rv σ2 =>
              ((match lv, rv with
                | .Float a, .Float b => .ok (.Float (f64Add a b))
                | .Integer a, .Integer b => .ok (.Integer (wrap64 (a + b)))
                | .Integer a, .Float b => .ok (.Float (f64Add (intToF64 a) b))
                | .Float a, .Integer b => .ok (.Float (f64Add a (intToF64 b)))
                | la, rb => .err ("lhs is " ++ objDebug la ++ " rhs is " ++
                    objDebug rb ++ " cannot add")), σ2)
          | Operator.Subtract =>
              eseq (visit_expr lhs σ) fun lv σ1 =>
              eseq (visit_expr rhs σ1) fun rv σ2 =>
              ((match lv, rv with
                | .Float a, .Float b => .ok (.Float (f64Sub a b))
                | .Integer a, .Integer b => .ok (.Integer (wrap64 (a - b)))
                | .Integer a, .Float b => .ok (.Float (f64Sub (intToF64 a) b))
                | .Float a, .Integer b => .ok (.Float (f64Sub a (intToF64 b)))
                | la, rb => .err ("lhs is " ++ objDebug la ++ " rhs is " ++
                    objDebug rb ++ " cannot subtract")), σ2)
          | Operator.Multiply =>
              eseq (visit_expr lhs σ) fun lv σ1 =>
              eseq (visit_expr rhs σ1) fun rv σ2 =>
              ((match lv, rv with
                | .Float a, .Float b => .ok (.Float (f64Mul a b))
                | .Integer a, .Integer b => .ok (.Integer (wrap64 (a * b)))
                | .Integer a, .Float b => .ok (.Float (f64Mul (intToF64 a) b))
                | .Float a, .Integer b => .ok (.Float (f64Mul a (intToF64 b)))
                | la, rb => .err ("lhs is " ++ objDebug la ++ " rhs is " ++
                    objDebug rb ++ " cannot multiply")), σ2)
          | Operator.Divide =>
              eseq (visit_expr lhs σ) fun lv σ1 =>
              eseq (visit_expr rhs σ1) fun rv σ2 =>
              ((match lv, rv with
                | .Float a, .Float b => .ok (.Float (f64Div a b))
                | .Integer a, .Integer b =>
                    .ok (.Float (f64Div (intToF64 a) (intToF64 b)))
                | .Integer a, .Float b => .ok (.Float (f64Div (intToF64 a) b))
                | .Float a, .Integer b => .ok (.Float (f64Div a (intToF64 b)))
                | la, rb => .err ("lhs is " ++ objDebug la ++ " rhs is " ++
                    objDebug rb ++ " cannot divide")), σ2)
          | op => (.err ("Invalid inline opeartor " ++ opDebug op), σ))
  | Expr.Grouping e, σ => visit_expr e σ
  | Expr.Logical _ _ _, σ => (.unimplArm, σ)

/-- Mirrors `stringify` (the float rendering approximates Rust's `{}`
display of an `f64`; no claim prints a float). -/
def stringify : Object → String
  | .Nil => "nil"
  | .Float v => f64Debug v
  | .Integer n => toString n
  | .Boolean b => if b then "true" else "false"
  | .StringLiteral s => s

mutual

/-- Mirrors `visit_statement` of the `Visitor` impl. `Statement::If`
and `Statement::While` have no arm in the source match (see
`EvalResult`). -/
def visit_statement : Statement → RTState → EvalResult × RTState
  | Statement.Expression e, σ => visit_expr e σ
  | Statement.Print e, σ =>
      eseq (visit_expr e σ) fun result σ1 =>
        (.ok result, { σ1 with output := σ1.output ++ [stringify result] })
  | Statement.Var token initializer, σ =>
      (match initializer with
       | some e =>
          eseq (visit_expr e σ) fun value σ1 =>
            (.ok .Nil, define_variable token.lexeme value σ1)
       | none => (.ok .Nil, define_variable token.lexeme .Nil σ))
  | Statement.Block statements, σ =>
      eseq (blockGo statements Object.Nil
          { σ with environments := [] :: σ.environments }) fun _ σ1 =>
        (.ok .Nil, σ1)
  | Statement.If _ _ _, σ => (.unimplArm, σ)
  | Statement.While _ _, σ => (.unimplArm, σ)

/-- The statement loop of `execute_block`: `Ok` updates `last_value`;
`Err` pops the pushed scope and returns; a panic or a missing match arm
never reaches the explicit pop. The normal exit pops and returns the
last value. -/
def blockGo : List Statement → Object → RTState → EvalResult × RTState
  | [], last, σ => (.ok last, { σ with environments := σ.environments.tail })
  | st :: rest, _last, σ =>
      match visit_statement st σ with
      | (.ok o, σ1) => blockGo rest o σ1
      | (.err m, σ1) => (.err m, { σ1 with environments := σ1.environments.tail })
      | (other, σ1) => (other, σ1)

end

/-- Mirrors `execute_block`: push a fresh scope, run the statement
loop (the `Block` arm of `visit_statement` above inlines this body to
keep the mutual recursion structural; the two agree definitionally). -/
def execute_block (statements : List Statement) (σ : RTState) :
    EvalResult × RTState :=
  blockGo statements Object.Nil
    { σ with environments := [] :: σ.environments }

/-- The outcome of the top-level `interpret` loop: either it finishes
(reporting `Err` results to standard output and continuing with the
next statement), or the process aborts (panic / missing match arm). -/
inductive InterpOutcome where
  | finished (σ : RTState)
  | aborted (r : EvalResult) (σ : RTState)
  deriving DecidableEq, Repr

/-- Mirrors `interpret`. -/
def interpret : List Statement → RTState → InterpOutcome
  | [], σ => .finished σ
  | st :: rest, σ =>
      match visit_statement st σ with
      | (.ok _, σ1) => interpret rest σ1
      | (.err m, σ1) =>
          interpret rest
            { σ1 with output := σ1.output ++ ["Error evaluating: " ++ m] }
      | (other, σ1) => .aborted other σ1

/-- Mirrors `build_interpreter`: one (empty) global scope. -/
def build_interpreter : RTState := { environments := [[]], output := [] }

end Runtime

/-! ## Pipeline glue (spec-modelled) -/

/-- Modelled from the spec: the glue between scanner and parser is not
under src (main.rs only scans and prints tokens). Spec section 4.1,
Output filtering: "the pipeline drops `Whitespace`, `Newline`, and
`Comment` before passing to the parser". -/
def filterTrivia (ts : List Token) : List Token :=
  ts.filter (fun t => t.token_type ∉
    [TokenType.Whitespace, TokenType.Newline, TokenType.Comment])

/-- Parse a source string through the (spec-modelled) pipeline:
scan, drop trivia, parse. -/
def parseSource (fuel : Nat) (source : String) :
    Except ParseError (List Statement) :=
  Parser.parseTokens fuel (filterTrivia (Scanner.scan_tokens source))

/-- Outcome of a full pipeline run (spec-modelled glue, section 2): a
parse error stops before evaluation. -/
inductive RunOutcome where
  | parseFailed (e : ParseError)
  | ran (o : Runtime.InterpOutcome)
  deriving DecidableEq, Repr

/-- Modelled from the spec (section 2 pipeline): scan, filter trivia,
parse, then interpret with a fresh interpreter. -/
def runSource (fuel : Nat) (source : String) : RunOutcome :=
  match parseSource fuel source with
  | .error e => .parseFailed e
  | .ok prog => .ran (Runtime.interpret prog Runtime.build_interpreter)


/-! ## Verification-layer definitions -/

/-- Outcomes a `Result<Object, RuntimeError>` can actually carry
(`Ok` or `Err`) — as opposed to the modelled control aborts. -/
def Runtime.isOkOrErr : Runtime.EvalResult → Bool
  | .ok _ => true
  | .err _ => true
  | _ => false

/-- Success discriminator for `Except`. -/
def exceptIsOk : Except ParseError (List Statement) → Bool
  | .ok _ => true
  | .error _ => false

/-- A string-literal lexeme that did find its closing quote: at least
the two quote characters, and it ends in `'"'`. -/
def strTerminated (l : List Char) : Prop :=
  2 ≤ l.length ∧ l.getLast? = some '"'

instance (l : List Char) : Decidable (strTerminated l) :=
  inferInstanceAs (Decidable (_ ∧ _))

/-- An unterminated string-literal lexeme (opening quote, no closing
quote before end of input). -/
def strUnterminated (lexeme : String) : Prop := ¬ strTerminated lexeme.data

instance (s : String) : Decidable (strUnterminated s) :=
  inferInstanceAs (Decidable (¬ _))

/-- In-order concatenation of the lexemes of a token list. -/
def lexemesConcat (ts : List Token) : String :=
  ts.foldr (fun t acc => t.lexeme ++ acc) ""

/-- The scenario program of claim C1 (spec section 8, scenario 3). -/
def whileProgramSrc : String :=
  "var i = 0; while (i < 3) \x7b print i; i = i + 1; \x7d"


/-! ### Parser cursor invariants (claim C7) -/

/-- The parser cursor sits at index `i` of the original token list:
`current` is the `i`-th token, `rest` the tokens after it, and
`previous` the `(i-1)`-th token (`none` before the first advance). -/
def Parser.PosAt (ts : List Token) (i : Nat) (s : Parser.PState) : Prop :=
  s.current = ts[i]? ∧ s.rest = ts.drop (i + 1) ∧
    ((i = 0 ∧ s.previous = none) ∨ (0 < i ∧ s.previous = ts[i - 1]?))

/-- The cursor is a valid view of `ts` that has not moved past index
`n` (where the final `Eof` token sits). -/
def Parser.InvP (ts : List Token) (n : Nat) (s : Parser.PState) : Prop :=
  ∃ i, i ≤ n ∧ Parser.PosAt ts i s

/-- `ts` ends with its only `Eof`-typed token, at index `n`. -/
def Parser.EofLast (ts : List Token) (n : Nat) : Prop :=
  ts.length = n + 1 ∧
    ∀ k t, ts[k]? = some t → (t.token_type = TokenType.Eof ↔ k = n)

/-- A parser computation preserves the bounded-cursor invariant on
every result (success or error). -/
def Parser.PresP (ts : List Token) (n : Nat) {α : Type}
    (m : Parser.PM α) : Prop :=
  ∀ s r s', Parser.InvP ts n s → m s = (r, s') → Parser.InvP ts n s'

/-- On success the computation has just consumed a `Semicolon` or a
`RightBrace`: every completed declaration ends in one of the two. -/
def Parser.PostP {α : Type} (m : Parser.PM α) : Prop :=
  ∀ s a s', m s = (.ok a, s') →
    ∃ p, s'.previous = some p ∧
      (p.token_type = TokenType.Semicolon ∨
        p.token_type = TokenType.RightBrace)


/-! ## Theorems -/

/-- C3 (code bug): the spec says a `//` comment consumes characters
only up to but not including the next newline, so the newline and all
following text are still scanned into their own tokens. The code's
comment branch is `while self.advance() != None {}`, which consumes
every remaining character of the source. On `"//a\nb"` the scanner
emits a single `Comment` token whose lexeme is the entire rest of the
input — newline and `b` included — and then only `Eof`: no token for
`b` exists. (The `Comment` token's column 1 instead of 0, and the `Eof`
column 7 after 5 characters, come from the failed `advance` calls at
end of input still bumping the column counter.) -/
theorem comment_consumes_to_end_of_input :
    Scanner.scan_tokens "//a\nb" =
      [{ token_type := TokenType.Comment, lexeme := "//a\nb",
         line_number := 1, column_number := 1 },
       { token_type := TokenType.Eof, lexeme := "",
         line_number := 1, column_number := 7 }] := by decide

/-- C4 (code bug): the spec says the scanner consumes a `.` after the
integer digits only when the character after the `.` is itself a
digit, so `45.` scans as `Integer` `45` followed by a `Dot` token.
`consume_number` instead consumes a following `.` unconditionally
(`Some(&'.') => self.advance()` — no look-ahead at the character after
the dot; the source's own TODO says `45.function()` is mishandled):
`"45."` becomes a single `Float` token with lexeme `"45."`, and no
`Integer` or `Dot` token exists. -/
theorem trailing_dot_scanned_as_float :
    Scanner.scan_tokens "45." =
      [{ token_type := TokenType.Float, lexeme := "45.",
         line_number := 1, column_number := 0 },
       { token_type := TokenType.Eof, lexeme := "",
         line_number := 1, column_number := 4 }] := by decide

/-- C1 (code bug): the parser does produce
`While(cond, body)` for the scenario program
`var i = 0; while (i < 3) { print i; i = i + 1; }`, but the
evaluator's `visit_statement` match has no arm for `Statement::While`
(nor `Statement::If`): the match is non-exhaustive, so rustc rejects
runtime.rs (E0004) when the module is compiled, and no while-loop
evaluation exists. Running the pipeline on the scenario aborts at the
missing arm with nothing printed, instead of printing 0, 1, 2. -/
theorem while_statement_has_no_evaluator_arm :
    parseSource 100 whileProgramSrc = .ok
      [Statement.Var
         { token_type := TokenType.Identifier, lexeme := "i", line_number := 1, column_number := 4 }
         (some (Expr.IntegerLiteral "0")),
       Statement.While
         (Expr.Binary
           (Expr.Variable { token_type := TokenType.Identifier, lexeme := "i", line_number := 1, column_number := 18 })
           (Expr.Operator TokenType.Less "<")
           (Expr.IntegerLiteral "3"))
         (Statement.Block
           [Statement.Print
              (Expr.Variable { token_type := TokenType.Identifier, lexeme := "i", line_number := 1, column_number := 33 }),
            Statement.Expression
              (Expr.Assign { token_type := TokenType.Identifier, lexeme := "i", line_number := 1, column_number := 36 }
                (Expr.Binary
                  (Expr.Variable { token_type := TokenType.Identifier, lexeme := "i", line_number := 1, column_number := 40 })
                  (Expr.Operator TokenType.Plus "+")
                  (Expr.IntegerLiteral "1")))])] ∧
    Runtime.interpret
      [Statement.Var
         { token_type := TokenType.Identifier, lexeme := "i", line_number := 1, column_number := 4 }
         (some (Expr.IntegerLiteral "0")),
       Statement.While
         (Expr.Binary
           (Expr.Variable { token_type := TokenType.Identifier, lexeme := "i", line_number := 1, column_number := 18 })
           (Expr.Operator TokenType.Less "<")
           (Expr.IntegerLiteral "3"))
         (Statement.Block
           [Statement.Print
              (Expr.Variable { token_type := TokenType.Identifier, lexeme := "i", line_number := 1, column_number := 33 }),
            Statement.Expression
              (Expr.Assign { token_type := TokenType.Identifier, lexeme := "i", line_number := 1, column_number := 36 }
                (Expr.Binary
                  (Expr.Variable { token_type := TokenType.Identifier, lexeme := "i", line_number := 1, column_number := 40 })
                  (Expr.Operator TokenType.Plus "+")
                  (Expr.IntegerLiteral "1")))])]
      Runtime.build_interpreter =
      .aborted .unimplArm
        { environments := [[("i", Runtime.Object.Integer 0)]], output := [] } :=
  ⟨by rfl, by rfl⟩

/-- C2 (code bug): the parser produces `Expr::Logical` for
`false and X` (here `X = true`), but the evaluator's `visit_expr`
match has no arm for `Expr::Logical`: the match is non-exhaustive
(rustc error E0004 if the module is compiled), so no short-circuit —
or any other — evaluation of logical expressions exists. -/
theorem logical_and_has_no_evaluator_arm :
    parseSource 100 "false and true;" =
      .ok [Statement.Expression (Expr.Logical (Expr.BoolLiteral false)
        TokenType.And (Expr.BoolLiteral true))] ∧
    Runtime.visit_expr (Expr.Logical (Expr.BoolLiteral false) TokenType.And
        (Expr.BoolLiteral true)) Runtime.build_interpreter =
      (.unimplArm, Runtime.build_interpreter) :=
  ⟨by rfl, by rfl⟩


/-- C5 (counterexample): evaluating `1 / 0` — a division whose two
operands evaluate to `Integer`s with the right one `0` — yields
`Ok(Float(inf))`, not a runtime error: the `Divide` arm of `visit_expr`
casts both integers `as f64` and divides, deferring to IEEE-754 (the
source carries a DEFER comment about integer division); there is no
zero check anywhere. -/
theorem division_by_integer_zero_not_an_error :
    Runtime.visit_expr (Expr.Binary (Expr.IntegerLiteral "1")
        (Expr.Operator TokenType.Slash "/") (Expr.IntegerLiteral "0"))
        Runtime.build_interpreter =
      (.ok (.Float .inf), Runtime.build_interpreter) ∧
    (Runtime.visit_expr (Expr.Binary (Expr.IntegerLiteral "1")
        (Expr.Operator TokenType.Slash "/") (Expr.IntegerLiteral "0"))
        Runtime.build_interpreter).1.isErr = false :=
  ⟨by rfl, by rfl⟩

/-- C5 (amended): a division `Binary` whose operands evaluate to two
`Integer`s casts both to f64 and divides per IEEE-754: with a zero
divisor the result is `Ok(Float(...))` — `+inf`, `-inf` or `NaN` by the
sign of the dividend — never a runtime error. A `Float` left operand
with zero `Integer` divisor likewise yields `Ok(Float(...))` by the
IEEE-754 division. -/
theorem division_by_zero_yields_ieee_float :
    (∀ (lhs rhs : Expr) (opLex : String) (σ σ1 σ2 : Runtime.RTState)
       (lv : Int),
      Runtime.visit_expr lhs σ = (.ok (.Integer lv), σ1) →
      Runtime.visit_expr rhs σ1 = (.ok (.Integer 0), σ2) →
      Runtime.visit_expr
          (Expr.Binary lhs (Expr.Operator TokenType.Slash opLex) rhs) σ =
        (.ok (.Float (if lv = 0 then .nan
                      else if 0 < lv then .inf else .negInf)), σ2)) ∧
    (∀ (lhs rhs : Expr) (opLex : String) (σ σ1 σ2 : Runtime.RTState)
       (fv : Runtime.F64),
      Runtime.visit_expr lhs σ = (.ok (.Float fv), σ1) →
      Runtime.visit_expr rhs σ1 = (.ok (.Integer 0), σ2) →
      Runtime.visit_expr
          (Expr.Binary lhs (Expr.Operator TokenType.Slash opLex) rhs) σ =
        (.ok (.Float (Runtime.f64Div fv (Runtime.intToF64 0))), σ2)) := by
  constructor
  · intro lhs rhs opLex σ σ1 σ2 lv h1 h2
    simp only [Runtime.visit_expr, Runtime.operator_from_expression, h1,
      Runtime.eseq, h2]
    have hdiv : Runtime.f64Div (Runtime.intToF64 lv) (Runtime.intToF64 0) =
        if lv = 0 then .nan else if 0 < lv then .inf else .negInf := by
      by_cases hz : lv = 0
      · subst hz; rfl
      · by_cases hp : 0 < lv
        · simp [Runtime.f64Div, Runtime.intToF64, hz, hp,
            Int.cast_eq_zero, Int.cast_pos]
        · simp [Runtime.f64Div, Runtime.intToF64, hz, hp,
            Int.cast_eq_zero, Int.cast_pos]
    rw [hdiv]
  · intro lhs rhs opLex σ σ1 σ2 fv h1 h2
    simp only [Runtime.visit_expr, Runtime.operator_from_expression, h1,
      Runtime.eseq, h2]

/-- C5 (witness): the amended theorem applied at `7 / 0` (integer
case) and at `(1 / 0) / 0` — whose left operand evaluates to
`Float(inf)` — for the float case. -/
theorem division_by_zero_yields_ieee_float_witness :
    Runtime.visit_expr (Expr.Binary (Expr.IntegerLiteral "7")
        (Expr.Operator TokenType.Slash "/") (Expr.IntegerLiteral "0"))
        Runtime.build_interpreter =
      (.ok (.Float (if (7 : Int) = 0 then .nan
                    else if 0 < (7 : Int) then .inf else .negInf)),
       Runtime.build_interpreter) ∧
    Runtime.visit_expr (Expr.Binary
        (Expr.Binary (Expr.IntegerLiteral "1")
          (Expr.Operator TokenType.Slash "/") (Expr.IntegerLiteral "0"))
        (Expr.Operator TokenType.Slash "/") (Expr.IntegerLiteral "0"))
        Runtime.build_interpreter =
      (.ok (.Float (Runtime.f64Div .inf (Runtime.intToF64 0))),
       Runtime.build_interpreter) :=
  ⟨division_by_zero_yields_ieee_float.1 (Expr.IntegerLiteral "7")
     (Expr.IntegerLiteral "0") "/" Runtime.build_interpreter
     Runtime.build_interpreter Runtime.build_interpreter 7
     (by decide) (by decide),
   division_by_zero_yields_ieee_float.2
     (Expr.Binary (Expr.IntegerLiteral "1")
       (Expr.Operator TokenType.Slash "/") (Expr.IntegerLiteral "0"))
     (Expr.IntegerLiteral "0") "/" Runtime.build_interpreter
     Runtime.build_interpreter Runtime.build_interpreter .inf
     (by decide) (by decide)⟩

/-- C6 (counterexample): `Expr::IntegerLiteral` is evaluated with
`text.parse::<i64>().unwrap()`. For a lexeme that does not parse as an
`i64` (here `9223372036854775808`, one past `i64::MAX`), `unwrap`
panics — aborting evaluation — instead of producing a runtime error
value (`Err`) that the interpret loop could report before continuing. -/
theorem big_integer_literal_panics :
    Runtime.visit_expr (Expr.IntegerLiteral "9223372036854775808")
        Runtime.build_interpreter = (.panicked, Runtime.build_interpreter) ∧
    (Runtime.visit_expr (Expr.IntegerLiteral "9223372036854775808")
        Runtime.build_interpreter).1.isErr = false :=
  ⟨by rfl, by rfl⟩

/-- C6 (amended): evaluating an `IntegerLiteral` whose lexeme does not
parse as a signed 64-bit integer panics via `unwrap` (no state
change), and the interpret loop aborts at that statement — it does not
report a runtime error and does not continue with the remaining
statements. -/
theorem bad_integer_literal_panics :
    ∀ (text : String) (σ : Runtime.RTState) (rest : List Statement),
      Runtime.rustParseI64 text = none →
      Runtime.visit_expr (Expr.IntegerLiteral text) σ = (.panicked, σ) ∧
      Runtime.interpret
          (Statement.Expression (Expr.IntegerLiteral text) :: rest) σ =
        .aborted .panicked σ := by
  intro text σ rest h
  have h1 : Runtime.visit_expr (Expr.IntegerLiteral text) σ = (.panicked, σ) := by
    simp [Runtime.visit_expr, h]
  refine ⟨h1, ?_⟩
  simp [Runtime.interpret, Runtime.visit_statement, h1]

/-- C6 (witness): the amended theorem applied at the literal
`9223372036854775808` with a following `print` statement. -/
theorem bad_integer_literal_panics_witness :
    Runtime.rustParseI64 "9223372036854775808" = none ∧
    (Runtime.visit_expr (Expr.IntegerLiteral "9223372036854775808")
        Runtime.build_interpreter = (.panicked, Runtime.build_interpreter) ∧
     Runtime.interpret
        [Statement.Expression (Expr.IntegerLiteral "9223372036854775808"),
         Statement.Print (Expr.BoolLiteral true)] Runtime.build_interpreter =
       .aborted .panicked Runtime.build_interpreter) :=
  ⟨by rfl,
   bad_integer_literal_panics "9223372036854775808" Runtime.build_interpreter
     [Statement.Print (Expr.BoolLiteral true)] (by rfl)⟩


/-! ### Environment-depth lemmas (claim C9) -/

/-- `assignEnvs` never changes the number of scopes. -/
theorem assignEnvs_length (name : String) (obj : Runtime.Object) :
    ∀ (envs envs' : List Runtime.Env),
      Runtime.assignEnvs name obj envs = some envs' →
      envs'.length = envs.length := by
  intro envs
  induction envs with
  | nil => intro envs' h; simp [Runtime.assignEnvs] at h
  | cons e rest ih =>
      intro envs' h
      simp only [Runtime.assignEnvs] at h
      cases hg : Runtime.envGet name e with
      | some o =>
          rw [hg] at h
          cases h
          simp
      | none =>
          rw [hg] at h
          cases hr : Runtime.assignEnvs name obj rest with
          | none => rw [hr] at h; cases h
          | some l' =>
              rw [hr] at h
              cases h
              simp [ih l' hr]

/-- `assign_variable` never changes the number of scopes. -/
theorem assign_variable_env_length (name : String) (obj : Runtime.Object)
    (σ : Runtime.RTState) :
    ((Runtime.assign_variable name obj σ).2).environments.length =
      σ.environments.length := by
  simp only [Runtime.assign_variable]
  cases ha : Runtime.assignEnvs name obj σ.environments with
  | some envs => simpa using assignEnvs_length name obj σ.environments envs ha
  | none => rfl

/-- `define_variable` never changes the number of scopes. -/
theorem define_variable_env_length (name : String) (obj : Runtime.Object)
    (σ : Runtime.RTState) :
    (Runtime.define_variable name obj σ).environments.length =
      σ.environments.length := by
  simp only [Runtime.define_variable]
  cases h : σ.environments with
  | nil => simp [h]
  | cons e rest => simp [h]

/-- `eseq` over a continuation that keeps the scope count of its input
state keeps the scope count of the first step. -/
theorem eseq_env_length (r : Runtime.EvalResult × Runtime.RTState)
    (f : Runtime.Object → Runtime.RTState → Runtime.EvalResult × Runtime.RTState)
    (hf : ∀ o σ', (f o σ').2.environments.length = σ'.environments.length) :
    (Runtime.eseq r f).2.environments.length = r.2.environments.length := by
  obtain ⟨res, σ⟩ := r
  cases res <;> simp [Runtime.eseq, hf]

/-- `visit_expr` never changes the number of scopes (expressions only
read, assign into existing scopes, or fail). -/
theorem visit_expr_env_length :
    ∀ (e : Expr) (σ : Runtime.RTState),
      ((Runtime.visit_expr e σ).2).environments.length =
        σ.environments.length := by
  intro e
  induction e with
  | Grouping e ih => intro σ; simpa [Runtime.visit_expr] using ih σ
  | Binary lhs op rhs ihl ihop ihr =>
      intro σ
      simp only [Runtime.visit_expr]
      cases hop : Runtime.operator_from_expression op with
      | error m => rfl
      | ok o =>
          cases o <;>
            simp only [] <;>
            first
              | rfl
              | (rw [eseq_env_length _ _ ?_, ihl]
                 intro o' σ'
                 rw [eseq_env_length _ _ ?_, ihr]
                 intro o'' σ''
                 rfl)
  | Unary op rhs ihop ihr =>
      intro σ
      simp only [Runtime.visit_expr]
      cases hop : Runtime.operator_from_expression op with
      | error m => rfl
      | ok o =>
          cases o <;>
            first
              | rfl
              | (rw [eseq_env_length _ _ ?_, ihr]
                 intro o' σ'
                 cases o' <;> rfl)
  | Operator tt s => intro σ; rfl
  | Logical l tt r ihl ihr => intro σ; rfl
  | BoolLiteral b => intro σ; rfl
  | StringLiteral s => intro σ; rfl
  | IntegerLiteral s => intro σ; rfl
  | FloatLiteral s => intro σ; rfl
  | Variable t => intro σ; rfl
  | Assign t e ih =>
      intro σ
      simp only [Runtime.visit_expr]
      rw [eseq_env_length _ _ ?_, ih]
      intro o σ'
      rw [eseq_env_length _ _ ?_, assign_variable_env_length]
      intro o' σ''
      rfl

mutual

/-- `visit_statement` keeps the scope count whenever its outcome is a
genuine `Result` (`Ok` or `Err`). -/
theorem visit_statement_env_length (s : Statement) (σ : Runtime.RTState)
    (h : Runtime.isOkOrErr (Runtime.visit_statement s σ).1 = true) :
    ((Runtime.visit_statement s σ).2).environments.length =
      σ.environments.length := by
  cases s with
  | Expression e => simpa [Runtime.visit_statement] using visit_expr_env_length e σ
  | Print e =>
      simp only [Runtime.visit_statement]
      rw [eseq_env_length _ _ ?_, visit_expr_env_length]
      intro o σ'
      rfl
  | Var t ini =>
      simp only [Runtime.visit_statement]
      cases ini with
      | none => simpa using define_variable_env_length t.lexeme .Nil σ
      | some e =>
          simp only []
          rw [eseq_env_length _ _ ?_, visit_expr_env_length]
          intro o σ'
          simpa using define_variable_env_length t.lexeme o σ'
  | Block stmts =>
      simp only [Runtime.visit_statement] at h ⊢
      rcases hb : Runtime.blockGo stmts Runtime.Object.Nil
          { σ with environments := [] :: σ.environments } with ⟨r, σb⟩
      have hlen : σb.environments.length = σ.environments.length →
          (Runtime.eseq (r, σb) fun _ σ1 =>
            (Runtime.EvalResult.ok Runtime.Object.Nil, σ1)).2.environments.length =
            σ.environments.length := by
        intro hh
        cases r <;> simpa [Runtime.eseq] using hh
      refine hlen ?_
      have hok : Runtime.isOkOrErr r = true := by
        rw [hb] at h
        cases r <;> simp_all [Runtime.eseq, Runtime.isOkOrErr]
      have := blockGo_env_length stmts Runtime.Object.Nil
        { σ with environments := [] :: σ.environments }
        σ.environments.length (by simp) (by rw [hb]; exact hok)
      rwa [hb] at this
  | If c t e => rfl
  | While c b => rfl

/-- The `execute_block` loop pops exactly the scope its caller pushed:
entered with `n + 1` scopes and completing with `Ok` or `Err`, it
finishes with `n`. -/
theorem blockGo_env_length (l : List Statement) (last : Runtime.Object)
    (σ : Runtime.RTState) (n : Nat)
    (hn : σ.environments.length = n + 1)
    (h : Runtime.isOkOrErr (Runtime.blockGo l last σ).1 = true) :
    ((Runtime.blockGo l last σ).2).environments.length = n := by
  cases l with
  | nil => simp [Runtime.blockGo, hn]
  | cons st rest =>
      simp only [Runtime.blockGo] at h ⊢
      rcases hv : Runtime.visit_statement st σ with ⟨r1, σ1⟩
      have hlen1 : Runtime.isOkOrErr r1 = true →
          σ1.environments.length = n + 1 := by
        intro hr
        have := visit_statement_env_length st σ (by rw [hv]; exact hr)
        rw [hv] at this
        simp at this
        omega
      rw [hv] at h
      cases r1 with
      | ok o =>
          exact blockGo_env_length rest o σ1 n (hlen1 rfl) h
      | err m =>
          have hlen := hlen1 rfl
          show σ1.environments.tail.length = n
          rw [List.length_tail]
          omega
      | panicked => simp [Runtime.isOkOrErr] at h
      | unimplArm => simp [Runtime.isOkOrErr] at h

end

/-- C9 (confirmed): executing a `Block`'s statement list through
`execute_block` leaves the environment-stack depth unchanged whenever
the outcome is a genuine `Result` — the normal-completion path (`Ok`)
and the error path (`Err`): exactly one fresh scope is pushed on entry
and exactly one popped on exit. (A modelled panic or missing-arm abort
is not a `Result` and unwinds past the pop.) -/
theorem execute_block_preserves_depth :
    ∀ (statements : List Statement) (σ : Runtime.RTState),
      Runtime.isOkOrErr (Runtime.execute_block statements σ).1 = true →
      ((Runtime.execute_block statements σ).2).environments.length =
        σ.environments.length := by
  intro stmts σ h
  exact blockGo_env_length stmts Runtime.Object.Nil
    { σ with environments := [] :: σ.environments }
    σ.environments.length (by simp) h

/-- C9 (witness): the depth-preservation theorem applied on the error
path — a block whose statement reads an undefined variable — starting
from the interpreter's initial one-scope stack. -/
theorem execute_block_preserves_depth_witness :
    Runtime.isOkOrErr (Runtime.execute_block
        [Statement.Expression (Expr.Variable
          { token_type := TokenType.Identifier, lexeme := "y", line_number := 1, column_number := 0 })]
        Runtime.build_interpreter).1 = true ∧
    ((Runtime.execute_block
        [Statement.Expression (Expr.Variable
          { token_type := TokenType.Identifier, lexeme := "y", line_number := 1, column_number := 0 })]
        Runtime.build_interpreter).2).environments.length =
      Runtime.build_interpreter.environments.length :=
  ⟨by decide,
   execute_block_preserves_depth
     [Statement.Expression (Expr.Variable
       { token_type := TokenType.Identifier, lexeme := "y", line_number := 1, column_number := 0 })]
     Runtime.build_interpreter (by decide)⟩


/-! ### Scanner lexeme lemmas (claim C8) -/

/-- Closed form of `takeLoopGo`: it consumes exactly the
`takeWhile`-prefix of the input onto the lexeme, bumping the column
once per consumed character, and leaves the `dropWhile`-suffix. -/
theorem takeLoopGo_eq (p : Char → Bool) :
    ∀ (src lex : List Char) (col : Nat),
      Scanner.takeLoopGo p src lex col =
        (src.dropWhile p, lex ++ src.takeWhile p,
         col + (src.takeWhile p).length) := by
  intro src
  induction src with
  | nil => intro lex col; simp [Scanner.takeLoopGo]
  | cons c rest ih =>
      intro lex col
      by_cases hc : p c
      · simp only [Scanner.takeLoopGo, hc, if_true, ih,
          List.takeWhile_cons, List.dropWhile_cons, List.length_cons]
        simp [hc]
        omega
      · simp [Scanner.takeLoopGo, hc, List.takeWhile_cons,
          List.dropWhile_cons]

/-- Closed form of `commentLoopGo`: the whole remaining input moves to
the lexeme; the column is bumped once per character plus once for the
final `advance` on the exhausted iterator. -/
theorem commentLoopGo_eq :
    ∀ (src lex : List Char) (col : Nat),
      Scanner.commentLoopGo src lex col = (lex ++ src, col + src.length + 1) := by
  intro src
  induction src with
  | nil => intro lex col; simp [Scanner.commentLoopGo]
  | cons c rest ih =>
      intro lex col
      simp only [Scanner.commentLoopGo, ih, List.append_assoc,
        List.singleton_append, List.length_cons]
      have h' : col + 1 + rest.length = col + (rest.length + 1) := by omega
      rw [h']

/-- `twoCharOp` keeps the character sequence and never shrinks the
lexeme. -/
theorem twoCharOp_chars (a b : TokenType) (s : Scanner.ScanState) :
    (Scanner.twoCharOp a b s).2.lexeme ++ (Scanner.twoCharOp a b s).2.src =
      s.lexeme ++ s.src ∧
    s.lexeme.length ≤ (Scanner.twoCharOp a b s).2.lexeme.length := by
  simp only [Scanner.twoCharOp]
  split
  · next rest heq => rw [heq]; simp
  · simp

/-- `commentLoop` keeps the character sequence and never shrinks the
lexeme. -/
theorem commentLoop_chars (s : Scanner.ScanState) :
    (Scanner.commentLoop s).lexeme ++ (Scanner.commentLoop s).src =
      s.lexeme ++ s.src ∧
    s.lexeme.length ≤ (Scanner.commentLoop s).lexeme.length := by
  simp [Scanner.commentLoop, commentLoopGo_eq]

/-- `advance` keeps the character sequence and never shrinks the
lexeme. -/
theorem advance_chars (s : Scanner.ScanState) :
    (Scanner.advance s).2.lexeme ++ (Scanner.advance s).2.src =
      s.lexeme ++ s.src ∧
    s.lexeme.length ≤ (Scanner.advance s).2.lexeme.length := by
  simp only [Scanner.advance]
  split
  · simp
  · next c rest heq => rw [heq]; simp

/-- `stringLoop` keeps the character sequence and never shrinks the
lexeme. -/
theorem stringLoop_chars (s : Scanner.ScanState) :
    (Scanner.stringLoop s).lexeme ++ (Scanner.stringLoop s).src =
      s.lexeme ++ s.src ∧
    s.lexeme.length ≤ (Scanner.stringLoop s).lexeme.length := by
  simp [Scanner.stringLoop, takeLoopGo_eq, List.takeWhile_append_dropWhile]

/-- `consume_string` keeps the character sequence and never shrinks
the lexeme. -/
theorem consume_string_chars (s : Scanner.ScanState) :
    (Scanner.consume_string s).lexeme ++ (Scanner.consume_string s).src =
      s.lexeme ++ s.src ∧
    s.lexeme.length ≤ (Scanner.consume_string s).lexeme.length := by
  have h1 := stringLoop_chars s
  have h2 := advance_chars (Scanner.stringLoop s)
  exact ⟨by rw [Scanner.consume_string, h2.1, h1.1],
         le_trans h1.2 h2.2⟩

/-- `digitsLoop` keeps the character sequence and never shrinks the
lexeme. -/
theorem digitsLoop_chars (s : Scanner.ScanState) :
    (Scanner.digitsLoop s).lexeme ++ (Scanner.digitsLoop s).src =
      s.lexeme ++ s.src ∧
    s.lexeme.length ≤ (Scanner.digitsLoop s).lexeme.length := by
  simp [Scanner.digitsLoop, takeLoopGo_eq, List.takeWhile_append_dropWhile]

/-- `consume_number` keeps the character sequence and never shrinks
the lexeme. -/
theorem consume_number_chars (s : Scanner.ScanState) :
    (Scanner.consume_number s).2.lexeme ++ (Scanner.consume_number s).2.src =
      s.lexeme ++ s.src ∧
    s.lexeme.length ≤ (Scanner.consume_number s).2.lexeme.length := by
  have h1 := digitsLoop_chars s
  rw [Scanner.consume_number]
  split
  · next rest heq =>
      have h2 := digitsLoop_chars
        ⟨rest, (Scanner.digitsLoop s).lexeme ++ ['.'],
         (Scanner.digitsLoop s).line_number,
         (Scanner.digitsLoop s).column_number + 1⟩
      constructor
      · show (Scanner.digitsLoop _).lexeme ++ (Scanner.digitsLoop _).src =
          s.lexeme ++ s.src
        rw [h2.1]
        show ((Scanner.digitsLoop s).lexeme ++ ['.']) ++ rest = _
        rw [List.append_assoc, List.singleton_append, ← heq, h1.1]
      · refine le_trans h1.2 (le_trans ?_ h2.2)
        simp
  · exact h1

/-- `consume_identifier` keeps the character sequence and never
shrinks the lexeme. -/
theorem consume_identifier_chars (s : Scanner.ScanState) :
    (Scanner.consume_identifier s).lexeme ++ (Scanner.consume_identifier s).src =
      s.lexeme ++ s.src ∧
    s.lexeme.length ≤ (Scanner.consume_identifier s).lexeme.length := by
  simp [Scanner.consume_identifier, takeLoopGo_eq,
    List.takeWhile_append_dropWhile]

set_option maxHeartbeats 2000000 in
/-- The classification stage preserves the total character sequence
and strictly extends the lexeme (by at least the dispatched-on
character). -/
theorem scanStep_chars (s : Scanner.ScanState) (tt : TokenType)
    (s' : Scanner.ScanState) (h : Scanner.scanStep s = (some tt, s')) :
    s'.lexeme ++ s'.src = s.lexeme ++ s.src ∧
    s.lexeme.length < s'.lexeme.length := by
  rcases s with ⟨src, lex, ln, col⟩
  cases src with
  | nil => exact absurd h (by simp [Scanner.scanStep])
  | cons c rest =>
      have key : ∀ s2 : Scanner.ScanState,
          (s2.lexeme ++ s2.src =
              (⟨rest, lex ++ [c], ln, col + 1⟩ : Scanner.ScanState).lexeme ++
                (⟨rest, lex ++ [c], ln, col + 1⟩ : Scanner.ScanState).src ∧
            (⟨rest, lex ++ [c], ln, col + 1⟩ :
                Scanner.ScanState).lexeme.length ≤ s2.lexeme.length) →
          s2.lexeme ++ s2.src = lex ++ (c :: rest) ∧
            lex.length < s2.lexeme.length := by
        intro s2 h12
        obtain ⟨h1, h2⟩ := h12
        constructor
        · rw [h1]; simp
        · simp at h2; omega
      simp only [Scanner.scanStep] at h
      by_cases hc0 : c = '('
      · rw [if_pos hc0] at h
        injection h with ha hb; subst hb; exact key _ ⟨rfl, le_refl _⟩
      rw [if_neg hc0] at h
      by_cases hc1 : c = ')'
      · rw [if_pos hc1] at h
        injection h with ha hb; subst hb; exact key _ ⟨rfl, le_refl _⟩
      rw [if_neg hc1] at h
      by_cases hc2 : c = Char.ofNat 123
      · rw [if_pos hc2] at h
        injection h with ha hb; subst hb; exact key _ ⟨rfl, le_refl _⟩
      rw [if_neg hc2] at h
      by_cases hc3 : c = Char.ofNat 125
      · rw [if_pos hc3] at h
        injection h with ha hb; subst hb; exact key _ ⟨rfl, le_refl _⟩
      rw [if_neg hc3] at h
      by_cases hc4 : c = ','
      · rw [if_pos hc4] at h
        injection h with ha hb; subst hb; exact key _ ⟨rfl, le_refl _⟩
      rw [if_neg hc4] at h
      by_cases hc5 : c = '.'
      · rw [if_pos hc5] at h
        injection h with ha hb; subst hb; exact key _ ⟨rfl, le_refl _⟩
      rw [if_neg hc5] at h
      by_cases hc6 : c = '-'
      · rw [if_pos hc6] at h
        injection h with ha hb; subst hb; exact key _ ⟨rfl, le_refl _⟩
      rw [if_neg hc6] at h
      by_cases hc7 : c = '+'
      · rw [if_pos hc7] at h
        injection h with ha hb; subst hb; exact key _ ⟨rfl, le_refl _⟩
      rw [if_neg hc7] at h
      by_cases hc8 : c = ';'
      · rw [if_pos hc8] at h
        injection h with ha hb; subst hb; exact key _ ⟨rfl, le_refl _⟩
      rw [if_neg hc8] at h
      by_cases hc9 : c = '*'
      · rw [if_pos hc9] at h
        injection h with ha hb; subst hb; exact key _ ⟨rfl, le_refl _⟩
      rw [if_neg hc9] at h
      by_cases hc10 : c = '!'
      · rw [if_pos hc10] at h
        injection h with ha hb; subst hb; exact key _ (twoCharOp_chars _ _ _)
      rw [if_neg hc10] at h
      by_cases hc11 : c = '='
      · rw [if_pos hc11] at h
        injection h with ha hb; subst hb; exact key _ (twoCharOp_chars _ _ _)
      rw [if_neg hc11] at h
      by_cases hc12 : c = '<'
      · rw [if_pos hc12] at h
        injection h with ha hb; subst hb; exact key _ (twoCharOp_chars _ _ _)
      rw [if_neg hc12] at h
      by_cases hc13 : c = '>'
      · rw [if_pos hc13] at h
        injection h with ha hb; subst hb; exact key _ (twoCharOp_chars _ _ _)
      rw [if_neg hc13] at h
      by_cases hc14 : c = '/'
      · rw [if_pos hc14] at h
        split at h
        · injection h with ha hb; subst hb
          exact key _ (commentLoop_chars _)
        · injection h with ha hb; subst hb
          exact key _ ⟨rfl, le_refl _⟩
      rw [if_neg hc14] at h
      by_cases hc15 : c = ' '
      · rw [if_pos hc15] at h
        injection h with ha hb; subst hb; exact key _ ⟨rfl, le_refl _⟩
      rw [if_neg hc15] at h
      by_cases hc16 : c = '\t'
      · rw [if_pos hc16] at h
        injection h with ha hb; subst hb; exact key _ ⟨rfl, le_refl _⟩
      rw [if_neg hc16] at h
      by_cases hc17 : c = '\r'
      · rw [if_pos hc17] at h
        injection h with ha hb; subst hb; exact key _ ⟨rfl, le_refl _⟩
      rw [if_neg hc17] at h
      by_cases hc18 : c = '\n'
      · rw [if_pos hc18] at h
        injection h with ha hb; subst hb; exact key _ ⟨rfl, le_refl _⟩
      rw [if_neg hc18] at h
      by_cases hc19 : c = '"'
      · rw [if_pos hc19] at h
        injection h with ha hb; subst hb; exact key _ (consume_string_chars _)
      rw [if_neg hc19] at h
      by_cases hc20 : c.isDigit = true
      · rw [if_pos hc20] at h
        injection h with ha hb; subst hb; exact key _ (consume_number_chars _)
      rw [if_neg hc20] at h
      by_cases hc21 : Scanner.rustIsAlphabetic c = true
      · rw [if_pos hc21] at h
        injection h with ha hb; subst hb; exact key _ (consume_identifier_chars _)
      rw [if_neg hc21] at h
      injection h with ha hb; subst hb; exact key _ ⟨rfl, le_refl _⟩

set_option maxHeartbeats 2000000 in
/-- The classification stage returns `none` only on exhausted input. -/
theorem scanStep_none (s s' : Scanner.ScanState)
    (h : Scanner.scanStep s = (none, s')) : s.src = [] := by
  rcases s with ⟨src, lex, ln, col⟩
  cases src with
  | nil => rfl
  | cons c rest =>
      exfalso
      simp only [Scanner.scanStep] at h
      by_cases hc0 : c = '('
      · rw [if_pos hc0] at h
        injection h with ha hb; exact Option.noConfusion ha
      rw [if_neg hc0] at h
      by_cases hc1 : c = ')'
      · rw [if_pos hc1] at h
        injection h with ha hb; exact Option.noConfusion ha
      rw [if_neg hc1] at h
      by_cases hc2 : c = Char.ofNat 123
      · rw [if_pos hc2] at h
        injection h with ha hb; exact Option.noConfusion ha
      rw [if_neg hc2] at h
      by_cases hc3 : c = Char.ofNat 125
      · rw [if_pos hc3] at h
        injection h with ha hb; exact Option.noConfusion ha
      rw [if_neg hc3] at h
      by_cases hc4 : c = ','
      · rw [if_pos hc4] at h
        injection h with ha hb; exact Option.noConfusion ha
      rw [if_neg hc4] at h
      by_cases hc5 : c = '.'
      · rw [if_pos hc5] at h
        injection h with ha hb; exact Option.noConfusion ha
      rw [if_neg hc5] at h
      by_cases hc6 : c = '-'
      · rw [if_pos hc6] at h
        injection h with ha hb; exact Option.noConfusion ha
      rw [if_neg hc6] at h
      by_cases hc7 : c = '+'
      · rw [if_pos hc7] at h
        injection h with ha hb; exact Option.noConfusion ha
      rw [if_neg hc7] at h
      by_cases hc8 : c = ';'
      · rw [if_pos hc8] at h
        injection h with ha hb; exact Option.noConfusion ha
      rw [if_neg hc8] at h
      by_cases hc9 : c = '*'
      · rw [if_pos hc9] at h
        injection h with ha hb; exact Option.noConfusion ha
      rw [if_neg hc9] at h
      by_cases hc10 : c = '!'
      · rw [if_pos hc10] at h
        injection h with ha hb; exact Option.noConfusion ha
      rw [if_neg hc10] at h
      by_cases hc11 : c = '='
      · rw [if_pos hc11] at h
        injection h with ha hb; exact Option.noConfusion ha
      rw [if_neg hc11] at h
      by_cases hc12 : c = '<'
      · rw [if_pos hc12] at h
        injection h with ha hb; exact Option.noConfusion ha
      rw [if_neg hc12] at h
      by_cases hc13 : c = '>'
      · rw [if_pos hc13] at h
        injection h with ha hb; exact Option.noConfusion ha
      rw [if_neg hc13] at h
      by_cases hc14 : c = '/'
      · rw [if_pos hc14] at h
        split at h <;> (injection h with ha hb; exact Option.noConfusion ha)
      rw [if_neg hc14] at h
      by_cases hc15 : c = ' '
      · rw [if_pos hc15] at h
        injection h with ha hb; exact Option.noConfusion ha
      rw [if_neg hc15] at h
      by_cases hc16 : c = '\t'
      · rw [if_pos hc16] at h
        injection h with ha hb; exact Option.noConfusion ha
      rw [if_neg hc16] at h
      by_cases hc17 : c = '\r'
      · rw [if_pos hc17] at h
        injection h with ha hb; exact Option.noConfusion ha
      rw [if_neg hc17] at h
      by_cases hc18 : c = '\n'
      · rw [if_pos hc18] at h
        injection h with ha hb; exact Option.noConfusion ha
      rw [if_neg hc18] at h
      by_cases hc19 : c = '"'
      · rw [if_pos hc19] at h
        injection h with ha hb; exact Option.noConfusion ha
      rw [if_neg hc19] at h
      by_cases hc20 : c.isDigit = true
      · rw [if_pos hc20] at h
        injection h with ha hb; exact Option.noConfusion ha
      rw [if_neg hc20] at h
      by_cases hc21 : Scanner.rustIsAlphabetic c = true
      · rw [if_pos hc21] at h
        injection h with ha hb; exact Option.noConfusion ha
      rw [if_neg hc21] at h
      injection h with ha hb; exact Option.noConfusion ha

/-- The emission stage builds the token from the accumulated lexeme,
keeps the remaining input and resets the lexeme. -/
theorem emitToken_spec (tt : TokenType) (s : Scanner.ScanState) :
    (Scanner.emitToken tt s).1.lexeme = String.mk s.lexeme ∧
    (Scanner.emitToken tt s).2.src = s.src ∧
    (Scanner.emitToken tt s).2.lexeme = [] := by
  refine ⟨rfl, ?_, rfl⟩
  simp only [Scanner.emitToken]
  split <;> rfl

/-- `scan_token`, called with an empty lexeme (as `scan_tokens` always
does), emits a token holding exactly the consumed characters, leaves
an empty lexeme, and strictly shrinks the remaining input. -/
theorem scan_token_spec (s : Scanner.ScanState) (hlex : s.lexeme = [])
    (t : Token) (s'' : Scanner.ScanState)
    (h : Scanner.scan_token s = (some t, s'')) :
    t.lexeme.data ++ s''.src = s.src ∧ s''.lexeme = [] ∧
    s''.src.length < s.src.length := by
  rw [Scanner.scan_token] at h
  rcases hstep : Scanner.scanStep s with ⟨o, s'⟩
  rw [hstep] at h
  cases o with
  | none => cases h
  | some tt =>
      have hc : s'.lexeme ++ s'.src = s.lexeme ++ s.src ∧
          s.lexeme.length < s'.lexeme.length := scanStep_chars s tt s' hstep
      simp only [Prod.mk.injEq, Option.some.injEq] at h
      obtain ⟨rfl, rfl⟩ := h
      obtain ⟨hcc, hlt⟩ := hc
      rw [hlex, List.nil_append] at hcc
      rw [hlex] at hlt
      simp only [List.length_nil] at hlt
      refine ⟨?_, (emitToken_spec tt s').2.2, ?_⟩
      · show (Scanner.emitToken tt s').1.lexeme.data ++
          (Scanner.emitToken tt s').2.src = s.src
        rw [(emitToken_spec tt s').1, (emitToken_spec tt s').2.1]
        exact hcc
      · show (Scanner.emitToken tt s').2.src.length < s.src.length
        rw [(emitToken_spec tt s').2.1]
        have := congrArg List.length hcc
        simp only [List.length_append] at this
        omega

/-- `scan_token` returns `none` only on exhausted input. -/
theorem scan_token_none (s : Scanner.ScanState)
    (h : (Scanner.scan_token s).1 = none) : s.src = [] := by
  rw [Scanner.scan_token] at h
  rcases hstep : Scanner.scanStep s with ⟨o, s'⟩
  rw [hstep] at h
  cases o with
  | none => exact scanStep_none s s' hstep
  | some tt => simp at h

/-- Over the scan loop (with adequate fuel, as `scan_tokens` supplies),
the concatenated lexeme characters of the emitted tokens reconstruct
the remaining input exactly. -/
theorem scanLoop_chars :
    ∀ (fuel : Nat) (s : Scanner.ScanState), s.lexeme = [] →
      s.src.length < fuel →
      ((Scanner.scanLoop fuel s).1).foldr
        (fun t acc => t.lexeme.data ++ acc) [] = s.src := by
  intro fuel
  induction fuel with
  | zero => intro s _ h; omega
  | succ f ih =>
      intro s hlex hlt
      rcases hst : Scanner.scan_token s with ⟨o, s'⟩
      cases o with
      | none =>
          have hsrc : s.src = [] := scan_token_none s (by rw [hst])
          show (Scanner.scanLoop (f + 1) s).1.foldr
            (fun t acc => t.lexeme.data ++ acc) [] = s.src
          simp only [Scanner.scanLoop]
          rw [hst]
          simp [hsrc]
      | some t =>
          obtain ⟨hchars, hlex', hdec⟩ := scan_token_spec s hlex t s' hst
          show (Scanner.scanLoop (f + 1) s).1.foldr
            (fun t acc => t.lexeme.data ++ acc) [] = s.src
          simp only [Scanner.scanLoop]
          rw [hst]
          show (t :: (Scanner.scanLoop f s').1).foldr
            (fun t acc => t.lexeme.data ++ acc) [] = s.src
          rw [List.foldr_cons, ih s' hlex' (by omega)]
          exact hchars

/-- C8 (confirmed): concatenating, in order, the lexemes of all tokens
returned by `scan_tokens` reconstructs the source string exactly; the
trailing `Eof` token contributes its empty lexeme. -/
theorem scan_tokens_lexemes_reconstruct (S : String) :
    lexemesConcat (Scanner.scan_tokens S) = S := by
  have hdata : ∀ ts : List Token, (lexemesConcat ts).data =
      ts.foldr (fun t acc => t.lexeme.data ++ acc) [] := by
    intro ts
    induction ts with
    | nil => rfl
    | cons t rest ih =>
        show (t.lexeme ++ lexemesConcat rest).data = _
        rw [String.data_append, ih]
        rfl
  have happ : ∀ (ts : List Token) (t : Token), t.lexeme = "" →
      (ts ++ [t]).foldr (fun t acc => t.lexeme.data ++ acc) [] =
        ts.foldr (fun t acc => t.lexeme.data ++ acc) [] := by
    intro ts t ht
    rw [List.foldr_append]
    simp [ht]
  have hmain : (lexemesConcat (Scanner.scan_tokens S)).data = S.data := by
    rw [hdata]
    show (((Scanner.scanLoop (S.data.length + 1) (⟨S.data, [], 1, 0⟩ : Scanner.ScanState)).1) ++ [({ token_type := TokenType.Eof, lexeme := "", line_number := (Scanner.scanLoop (S.data.length + 1) (⟨S.data, [], 1, 0⟩ : Scanner.ScanState)).2.line_number, column_number := (Scanner.scanLoop (S.data.length + 1) (⟨S.data, [], 1, 0⟩ : Scanner.ScanState)).2.column_number } : Token)]).foldr (fun (t : Token) acc => t.lexeme.data ++ acc) [] = S.data
    rw [happ _ _ rfl]
    exact scanLoop_chars (S.data.length + 1)
      (⟨S.data, [], 1, 0⟩ : Scanner.ScanState) rfl (Nat.lt_succ_self _)
  exact congrArg String.mk hmain


/-! ### Scanner column lemmas (claim C10) -/

/-- A character in the ASCII range occupies one UTF-8 byte. -/
theorem ascii_utf8Size (c : Char) (h : c.toNat < 128) : c.utf8Size = 1 := by
  unfold Char.utf8Size
  simp only []
  rw [if_pos]
  rw [UInt32.le_def, BitVec.le_def]
  have h2 : c.val.toBitVec.toNat < 128 := h
  have h3 : (UInt32.ofNatCore 127 Char.utf8Size.proof_1).toBitVec.toNat = 127 := rfl
  omega

/-- For an all-ASCII lexeme the byte length equals the character
count. -/
theorem lexByteLen_ascii :
    ∀ (l : List Char), (∀ c ∈ l, c.toNat < 128) →
      Scanner.lexByteLen l = l.length := by
  intro l
  induction l with
  | nil => intro _; rfl
  | cons c rest ih =>
      intro h
      have hc := ascii_utf8Size c (h c (by simp))
      simp only [Scanner.lexByteLen, List.map_cons, List.sum_cons, hc] at ih ⊢
      rw [ih fun x hx => h x (by simp [hx])]
      simp [Nat.add_comm]

/-- A lexeme built from an opening quote and quote-free content is not
a terminated string lexeme. -/
theorem not_terminated_of_no_quote :
    ∀ (l : List Char), (∀ x ∈ l, ¬ x = '"') → ¬ strTerminated ('"' :: l) := by
  intro l hl hst
  obtain ⟨hlen, hlast⟩ := hst
  cases l with
  | nil => simp at hlen
  | cons d l' =>
      rw [List.getLast?_cons_cons] at hlast
      have hmem : '"' ∈ d :: l' :=
        List.mem_of_mem_getLast? (by rw [hlast]; rfl)
      exact hl _ hmem rfl

/-- Keyword classification never yields a trivia or string token. -/
theorem identifier_token_type_ne (l : List Char) :
    Scanner.identifier_token_type l ≠ TokenType.Comment ∧
    Scanner.identifier_token_type l ≠ TokenType.Str := by
  rw [Scanner.identifier_token_type]
  split <;> simp

/-- `digitsLoop` bumps the column once per consumed character. -/
theorem digitsLoop_column (s : Scanner.ScanState) :
    (Scanner.digitsLoop s).column_number + s.lexeme.length =
      s.column_number + (Scanner.digitsLoop s).lexeme.length := by
  simp [Scanner.digitsLoop, takeLoopGo_eq]
  omega

/-- `consume_identifier` bumps the column once per consumed
character. -/
theorem consume_identifier_column (s : Scanner.ScanState) :
    (Scanner.consume_identifier s).column_number + s.lexeme.length =
      s.column_number + (Scanner.consume_identifier s).lexeme.length := by
  simp [Scanner.consume_identifier, takeLoopGo_eq]
  omega

/-- `consume_number` bumps the column once per consumed character, and
emits `Integer` or `Float`. -/
theorem consume_number_spec (s1 : Scanner.ScanState) :
    (Scanner.consume_number s1).2.column_number + s1.lexeme.length =
      s1.column_number + (Scanner.consume_number s1).2.lexeme.length ∧
    (Scanner.consume_number s1).1 ≠ TokenType.Comment ∧
    (Scanner.consume_number s1).1 ≠ TokenType.Str := by
  rw [Scanner.consume_number]
  split
  · next rest heq =>
      refine ⟨?_, by simp, by simp⟩
      have hb1 := digitsLoop_column s1
      have hb2 := digitsLoop_column
        ⟨rest, (Scanner.digitsLoop s1).lexeme ++ ['.'],
         (Scanner.digitsLoop s1).line_number,
         (Scanner.digitsLoop s1).column_number + 1⟩
      simp only [List.length_append, List.length_cons, List.length_nil] at hb2
      show (Scanner.digitsLoop _).column_number + s1.lexeme.length =
        s1.column_number + (Scanner.digitsLoop _).lexeme.length
      omega
  · exact ⟨digitsLoop_column s1, by simp, by simp⟩

/-- Column/termination behavior of `consume_string` called on the
state holding the opening quote: a terminated string is balanced
(one column per lexeme character); hitting end of input costs one
extra column bump and leaves an unterminated lexeme. -/
theorem consume_string_column (rest : List Char) (ln col : Nat) :
    ((Scanner.consume_string ⟨rest, ['"'], ln, col + 1⟩).column_number =
        col + (Scanner.consume_string ⟨rest, ['"'], ln, col + 1⟩).lexeme.length ∧
      strTerminated (Scanner.consume_string ⟨rest, ['"'], ln, col + 1⟩).lexeme) ∨
    ((Scanner.consume_string ⟨rest, ['"'], ln, col + 1⟩).column_number =
        col + (Scanner.consume_string ⟨rest, ['"'], ln, col + 1⟩).lexeme.length + 1 ∧
      ¬ strTerminated (Scanner.consume_string ⟨rest, ['"'], ln, col + 1⟩).lexeme) := by
  have hsl : Scanner.stringLoop ⟨rest, ['"'], ln, col + 1⟩ =
      ⟨rest.dropWhile (fun c => !(c = '"' : Bool)),
       ['"'] ++ rest.takeWhile (fun c => !(c = '"' : Bool)), ln,
       (col + 1) + (rest.takeWhile (fun c => !(c = '"' : Bool))).length⟩ := by
    simp [Scanner.stringLoop, takeLoopGo_eq]
  rw [Scanner.consume_string, hsl]
  cases hdw : rest.dropWhile (fun c => !(c = '"' : Bool)) with
  | nil =>
      right
      constructor
      · simp [Scanner.advance]
        omega
      · show ¬ strTerminated ('"' :: _)
        apply not_terminated_of_no_quote
        intro x hx
        have := List.mem_takeWhile_imp hx
        simpa using this
  | cons d r3 =>
      have hd : d = '"' := by
        have := List.head?_dropWhile_not (fun c => !(c = '"' : Bool)) rest
        rw [hdw] at this
        simpa using this
      left
      constructor
      · simp [Scanner.advance]
        omega
      · subst hd
        show strTerminated (('"' :: _) ++ ['"'])
        constructor
        · simp
        · rw [List.getLast?_concat]


set_option maxHeartbeats 2000000 in
/-- Column accounting of the classification stage when started (as
`scan_tokens` always does) with an empty lexeme: for every emitted
token kind, either the column counter advanced by exactly one per
lexeme character (all kinds except `Comment`, and `Str` only when the
string is terminated), or it advanced by one extra bump - the failing
`advance` at end of input inside the comment loop or `consume_string`. -/
theorem scanStep_column (src : List Char) (ln col : Nat) (tt : TokenType)
    (s' : Scanner.ScanState)
    (h : Scanner.scanStep ⟨src, [], ln, col⟩ = (some tt, s')) :
    (s'.column_number = col + s'.lexeme.length ∧ tt ≠ TokenType.Comment ∧
      (tt = TokenType.Str → strTerminated s'.lexeme)) ∨
    (s'.column_number = col + s'.lexeme.length + 1 ∧
      (tt = TokenType.Comment ∨
        (tt = TokenType.Str ∧ ¬ strTerminated s'.lexeme))) := by
  cases src with
  | nil => exact absurd h (by simp [Scanner.scanStep])
  | cons c rest =>
      simp only [Scanner.scanStep, List.nil_append] at h
      by_cases hc0 : c = '('
      · rw [if_pos hc0] at h
        injection h with ha hb
        injection ha with ha
        subst ha
        subst hb
        exact Or.inl ⟨by simp, by simp, by simp⟩
      rw [if_neg hc0] at h
      by_cases hc1 : c = ')'
      · rw [if_pos hc1] at h
        injection h with ha hb
        injection ha with ha
        subst ha
        subst hb
        exact Or.inl ⟨by simp, by simp, by simp⟩
      rw [if_neg hc1] at h
      by_cases hc2 : c = Char.ofNat 123
      · rw [if_pos hc2] at h
        injection h with ha hb
        injection ha with ha
        subst ha
        subst hb
        exact Or.inl ⟨by simp, by simp, by simp⟩
      rw [if_neg hc2] at h
      by_cases hc3 : c = Char.ofNat 125
      · rw [if_pos hc3] at h
        injection h with ha hb
        injection ha with ha
        subst ha
        subst hb
        exact Or.inl ⟨by simp, by simp, by simp⟩
      rw [if_neg hc3] at h
      by_cases hc4 : c = ','
      · rw [if_pos hc4] at h
        injection h with ha hb
        injection ha with ha
        subst ha
        subst hb
        exact Or.inl ⟨by simp, by simp, by simp⟩
      rw [if_neg hc4] at h
      by_cases hc5 : c = '.'
      · rw [if_pos hc5] at h
        injection h with ha hb
        injection ha with ha
        subst ha
        subst hb
        exact Or.inl ⟨by simp, by simp, by simp⟩
      rw [if_neg hc5] at h
      by_cases hc6 : c = '-'
      · rw [if_pos hc6] at h
        injection h with ha hb
        injection ha with ha
        subst ha
        subst hb
        exact Or.inl ⟨by simp, by simp, by simp⟩
      rw [if_neg hc6] at h
      by_cases hc7 : c = '+'
      · rw [if_pos hc7] at h
        injection h with ha hb
        injection ha with ha
        subst ha
        subst hb
        exact Or.inl ⟨by simp, by simp, by simp⟩
      rw [if_neg hc7] at h
      by_cases hc8 : c = ';'
      · rw [if_pos hc8] at h
        injection h with ha hb
        injection ha with ha
        subst ha
        subst hb
        exact Or.inl ⟨by simp, by simp, by simp⟩
      rw [if_neg hc8] at h
      by_cases hc9 : c = '*'
      · rw [if_pos hc9] at h
        injection h with ha hb
        injection ha with ha
        subst ha
        subst hb
        exact Or.inl ⟨by simp, by simp, by simp⟩
      rw [if_neg hc9] at h
      by_cases hc10 : c = '!'
      · rw [if_pos hc10] at h
        injection h with ha hb
        injection ha with ha
        subst ha
        subst hb
        simp only [Scanner.twoCharOp]
        split
        · exact Or.inl ⟨by simp, by simp, by simp⟩
        · exact Or.inl ⟨by simp, by simp, by simp⟩
      rw [if_neg hc10] at h
      by_cases hc11 : c = '='
      · rw [if_pos hc11] at h
        injection h with ha hb
        injection ha with ha
        subst ha
        subst hb
        simp only [Scanner.twoCharOp]
        split
        · exact Or.inl ⟨by simp, by simp, by simp⟩
        · exact Or.inl ⟨by simp, by simp, by simp⟩
      rw [if_neg hc11] at h
      by_cases hc12 : c = '<'
      · rw [if_pos hc12] at h
        injection h with ha hb
        injection ha with ha
        subst ha
        subst hb
        simp only [Scanner.twoCharOp]
        split
        · exact Or.inl ⟨by simp, by simp, by simp⟩
        · exact Or.inl ⟨by simp, by simp, by simp⟩
      rw [if_neg hc12] at h
      by_cases hc13 : c = '>'
      · rw [if_pos hc13] at h
        injection h with ha hb
        injection ha with ha
        subst ha
        subst hb
        simp only [Scanner.twoCharOp]
        split
        · exact Or.inl ⟨by simp, by simp, by simp⟩
        · exact Or.inl ⟨by simp, by simp, by simp⟩
      rw [if_neg hc13] at h
      by_cases hc14 : c = '/'
      · rw [if_pos hc14] at h
        split at h
        · injection h with ha hb
          injection ha with ha
          subst ha
          subst hb
          refine Or.inr ⟨?_, Or.inl rfl⟩
          simp [Scanner.commentLoop, commentLoopGo_eq]
          omega
        · injection h with ha hb
          injection ha with ha
          subst ha
          subst hb
          exact Or.inl ⟨by simp, by simp, by simp⟩
      rw [if_neg hc14] at h
      by_cases hc15 : c = ' '
      · rw [if_pos hc15] at h
        injection h with ha hb
        injection ha with ha
        subst ha
        subst hb
        exact Or.inl ⟨by simp, by simp, by simp⟩
      rw [if_neg hc15] at h
      by_cases hc16 : c = '\t'
      · rw [if_pos hc16] at h
        injection h with ha hb
        injection ha with ha
        subst ha
        subst hb
        exact Or.inl ⟨by simp, by simp, by simp⟩
      rw [if_neg hc16] at h
      by_cases hc17 : c = '\r'
      · rw [if_pos hc17] at h
        injection h with ha hb
        injection ha with ha
        subst ha
        subst hb
        exact Or.inl ⟨by simp, by simp, by simp⟩
      rw [if_neg hc17] at h
      by_cases hc18 : c = '\n'
      · rw [if_pos hc18] at h
        injection h with ha hb
        injection ha with ha
        subst ha
        subst hb
        exact Or.inl ⟨by simp, by simp, by simp⟩
      rw [if_neg hc18] at h
      by_cases hc19 : c = '"'
      · rw [if_pos hc19] at h
        injection h with ha hb
        injection ha with ha
        subst ha
        subst hb
        subst hc19
        rcases consume_string_column rest ln col with ⟨h1, h2⟩ | ⟨h1, h2⟩
        · exact Or.inl ⟨h1, by simp, fun _ => h2⟩
        · exact Or.inr ⟨h1, Or.inr ⟨rfl, h2⟩⟩
      rw [if_neg hc19] at h
      by_cases hc20 : c.isDigit = true
      · rw [if_pos hc20] at h
        injection h with ha hb
        injection ha with ha
        subst ha
        subst hb
        have hs := consume_number_spec (⟨rest, [c], ln, col + 1⟩ : Scanner.ScanState)
        refine Or.inl ⟨?_, hs.2.1, fun hstr => absurd hstr hs.2.2⟩
        have h1 := hs.1
        simp at h1
        omega
      rw [if_neg hc20] at h
      by_cases hc21 : Scanner.rustIsAlphabetic c = true
      · rw [if_pos hc21] at h
        injection h with ha hb
        injection ha with ha
        subst ha
        subst hb
        have hs := consume_identifier_column
          (⟨rest, [c], ln, col + 1⟩ : Scanner.ScanState)
        have hne := identifier_token_type_ne
          (Scanner.consume_identifier ⟨rest, [c], ln, col + 1⟩).lexeme
        refine Or.inl ⟨?_, hne.1, fun hstr => absurd hstr hne.2⟩
        simp at hs
        omega
      rw [if_neg hc21] at h
      injection h with ha hb
      injection ha with ha
      subst ha
      subst hb
      exact Or.inl ⟨by simp, by simp, by simp⟩


/-- Counterexample for the exact-column part of C10: a comment always
runs to end of input, where the final failing `advance` still bumps the
column counter, so the `Comment` token's computed column is one past
the 0-based column of its first character. For the source `//x` the
lexeme starts at column 0 but the token records column 1. -/
theorem comment_token_column_off_by_one :
    Scanner.scan_tokens "//x" =
      [{ token_type := TokenType.Comment, lexeme := "//x", line_number := 1, column_number := 1 },
       { token_type := TokenType.Eof, lexeme := "", line_number := 1, column_number := 5 }] ∧
    (Scanner.scan_tokens "//x").head?.map Token.column_number ≠ some 0 :=
  ⟨by decide, by decide⟩

/-- C10: the token column is the running character-count column minus
the lexeme's byte length as an unsigned subtraction. For an all-ASCII
lexeme the subtraction cannot underflow, and it gives the 0-based
column of the lexeme's first character for every token kind except
`Comment` and unterminated `Str` tokens, whose end-of-input `advance`
bumps the counter once more, placing the token one column past its
first character. For input containing a multi-byte character the byte
length exceeds the character-count column and the subtraction
underflows: scanning `€` at the start of input leaves the counter at 1
while the one-character lexeme is 3 bytes long. -/
theorem column_subtraction_behavior :
    (∀ (src : List Char) (ln col : Nat) (tt : TokenType)
        (s' : Scanner.ScanState),
        Scanner.scanStep ⟨src, [], ln, col⟩ = (some tt, s') →
        (∀ ch ∈ s'.lexeme, ch.toNat < 128) →
        Scanner.lexByteLen s'.lexeme ≤ s'.column_number ∧
        (Scanner.emitToken tt s').1.column_number =
          (if tt = TokenType.Comment ∨
              (tt = TokenType.Str ∧ ¬ strTerminated s'.lexeme)
            then col + 1 else col)) ∧
    (Scanner.scanStep ⟨['€'], [], 1, 0⟩ =
        (some TokenType.Unknown, ⟨[], ['€'], 1, 1⟩) ∧
      (⟨[], ['€'], 1, 1⟩ : Scanner.ScanState).column_number <
        Scanner.lexByteLen (⟨[], ['€'], 1, 1⟩ : Scanner.ScanState).lexeme) := by
  constructor
  · intro src ln col tt s' h hascii
    have hbl := lexByteLen_ascii s'.lexeme hascii
    rcases scanStep_column src ln col tt s' h with ⟨h1, h2, h3⟩ | ⟨h1, h2⟩
    · constructor
      · rw [hbl, h1]
        omega
      · have hcond : ¬ (tt = TokenType.Comment ∨
            (tt = TokenType.Str ∧ ¬ strTerminated s'.lexeme)) := by
          rintro (hcom | ⟨hstr, hnt⟩)
          · exact h2 hcom
          · exact hnt (h3 hstr)
        rw [if_neg hcond]
        simp only [Scanner.emitToken]
        rw [hbl, h1]
        omega
    · constructor
      · rw [hbl, h1]
        omega
      · rw [if_pos h2]
        simp only [Scanner.emitToken]
        rw [hbl, h1]
        omega
  · exact ⟨by decide, by decide⟩

/-- Witness for C10 at the concrete token `42` scanned from column 0:
no underflow, and the recorded column is exactly 0. -/
theorem column_subtraction_behavior_witness :
    Scanner.lexByteLen (⟨[], ['4', '2'], 1, 2⟩ : Scanner.ScanState).lexeme ≤
      (⟨[], ['4', '2'], 1, 2⟩ : Scanner.ScanState).column_number ∧
    (Scanner.emitToken TokenType.Integer
        (⟨[], ['4', '2'], 1, 2⟩ : Scanner.ScanState)).1.column_number =
      (if TokenType.Integer = TokenType.Comment ∨
          (TokenType.Integer = TokenType.Str ∧
            ¬ strTerminated (⟨[], ['4', '2'], 1, 2⟩ : Scanner.ScanState).lexeme)
        then 0 + 1 else 0) :=
  column_subtraction_behavior.1 ['4', '2'] 1 0 TokenType.Integer
    ⟨[], ['4', '2'], 1, 2⟩ (by decide) (by decide)


namespace Parser

/-- Evaluation rule of the `PM` bind at a state. -/
theorem PM_bind_eq {α β : Type} (ma : PM α) (f : α → PM β) (s : PState) :
    (ma >>= f) s = match ma s with
      | (.ok a, s1) => f a s1
      | (.error e, s1) => (.error e, s1) := rfl

/-- `advState` moves the cursor from index `i` to `i + 1`. -/
theorem posAt_advState {ts : List Token} {i : Nat} {s : PState}
    (h : PosAt ts i s) : PosAt ts (i + 1) (advState s) := by
  obtain ⟨hc, hr, _⟩ := h
  refine ⟨?_, ?_, Or.inr ⟨Nat.succ_pos i, ?_⟩⟩
  · show s.rest.head? = ts[i + 1]?
    rw [hr, List.head?_drop]
  · show s.rest.tail = ts.drop (i + 1 + 1)
    rw [hr, List.tail_drop]
  · show s.current = ts[i + 1 - 1]?
    rw [hc]
    rfl

/-- `fuelError` leaves the state unchanged. -/
theorem pres_fuelError {α : Type} {ts : List Token} {n : Nat} :
    PresP ts n (fuelError : PM α) := by
  intro s r s' hs h
  injection h with h1 h2
  subst h2
  exact hs

/-- `pure` leaves the state unchanged. -/
theorem pres_pure {α : Type} {ts : List Token} {n : Nat} (a : α) :
    PresP ts n (pure a : PM α) := by
  intro s r s' hs h
  injection h with h1 h2
  subst h2
  exact hs

/-- `throwP` leaves the state unchanged. -/
theorem pres_throwP {α : Type} {ts : List Token} {n : Nat} (msg : String) :
    PresP ts n (throwP msg : PM α) := by
  intro s r s' hs h
  injection h with h1 h2
  subst h2
  exact hs

/-- `checkM` leaves the state unchanged. -/
theorem pres_checkM {ts : List Token} {n : Nat} (tt : TokenType) :
    PresP ts n (checkM tt) := by
  intro s r s' hs h
  injection h with h1 h2
  subst h2
  exact hs

/-- `previous_token` leaves the state unchanged. -/
theorem pres_previous_token {ts : List Token} {n : Nat} :
    PresP ts n previous_token := by
  intro s r s' hs h
  unfold previous_token at h
  cases hp : s.previous with
  | none =>
      rw [hp] at h
      simp only [] at h
      injection h with h1 h2
      subst h2
      exact hs
  | some token =>
      rw [hp] at h
      simp only [] at h
      injection h with h1 h2
      subst h2
      exact hs

/-- `fromPrevious` leaves the state unchanged. -/
theorem pres_fromPrevious {ts : List Token} {n : Nat} (f : Token → Expr) :
    PresP ts n (fromPrevious f) := by
  intro s r s' hs h
  unfold fromPrevious at h
  cases hp : s.previous with
  | none =>
      rw [hp] at h
      simp only [] at h
      injection h with h1 h2
      subst h2
      exact hs
  | some token =>
      rw [hp] at h
      simp only [] at h
      injection h with h1 h2
      subst h2
      exact hs

/-- `token_match` preserves the bounded cursor when `Eof` is not among
the matched kinds: at the `Eof` token (index `n`) it cannot match, so
it never advances past `n`. -/
theorem pres_token_match {ts : List Token} {n : Nat} {tts : List TokenType}
    (hts : EofLast ts n) (hno : TokenType.Eof ∉ tts) :
    PresP ts n (token_match tts) := by
  intro s r s' hs h
  unfold token_match at h
  cases hcur : s.current with
  | none =>
      rw [hcur] at h
      simp only [] at h
      injection h with h1 h2
      subst h2
      exact hs
  | some token =>
      rw [hcur] at h
      simp only [] at h
      by_cases hmem : token.token_type ∈ tts
      · rw [if_pos hmem] at h
        injection h with h1 h2
        subst h2
        obtain ⟨i, hi, hpos⟩ := hs
        refine ⟨i + 1, ?_, posAt_advState hpos⟩
        rcases Nat.lt_or_ge i n with hlt | hge
        · omega
        · exfalso
          have hin : i = n := Nat.le_antisymm hi hge
          have hct : ts[i]? = some token := by
            rw [← hpos.1]
            exact hcur
          have heof : token.token_type = TokenType.Eof :=
            (hts.2 i token hct).mpr hin
          rw [heof] at hmem
          exact hno hmem
      · rw [if_neg hmem] at h
        injection h with h1 h2
        subst h2
        exact hs

/-- `consume tt` with `tt ≠ Eof` preserves the bounded cursor: it only
advances after checking the current token has type `tt`, which rules
out the `Eof` position. -/
theorem pres_consume {ts : List Token} {n : Nat} {tt : TokenType}
    (hts : EofLast ts n) (hne : tt ≠ TokenType.Eof) :
    PresP ts n (consume tt) := by
  intro s r s' hs h
  unfold consume at h
  by_cases hc : checkB tt s
  · rw [if_pos hc] at h
    cases hcur : s.current with
    | none =>
        exfalso
        unfold checkB at hc
        rw [hcur] at hc
        simp at hc
    | some token =>
        rw [hcur] at h
        simp only [] at h
        injection h with h1 h2
        subst h2
        obtain ⟨i, hi, hpos⟩ := hs
        refine ⟨i + 1, ?_, posAt_advState hpos⟩
        unfold checkB at hc
        rw [hcur] at hc
        simp at hc
        rcases Nat.lt_or_ge i n with hlt | hge
        · omega
        · exfalso
          have hin : i = n := Nat.le_antisymm hi hge
          have hct : ts[i]? = some token := by
            rw [← hpos.1]
            exact hcur
          have heof := (hts.2 i token hct).mpr hin
          rw [hc] at heof
          exact hne heof
  · rw [if_neg hc] at h
    injection h with h1 h2
    subst h2
    exact hs

/-- Bind preserves the bounded cursor when both parts do. -/
theorem presP_bind {ts : List Token} {n : Nat} {α β : Type}
    {ma : PM α} {f : α → PM β}
    (hma : PresP ts n ma) (hf : ∀ a, PresP ts n (f a)) :
    PresP ts n (ma >>= f) := by
  intro s r s' hs h
  rw [PM_bind_eq] at h
  cases hr : ma s with
  | mk r1 s1 =>
      rw [hr] at h
      cases r1 with
      | ok a =>
          simp only [] at h
          exact hf a s1 r s' (hma s (.ok a) s1 hs hr) h
      | error e =>
          simp only [] at h
          injection h with h1 h2
          subst h2
          exact hma s (.error e) s1 hs hr

/-- `if` preserves the bounded cursor when both branches do. -/
theorem presP_ite {ts : List Token} {n : Nat} {α : Type} (c : Prop)
    [Decidable c] {A B : PM α} (hA : PresP ts n A) (hB : PresP ts n B) :
    PresP ts n (if c then A else B) := by
  by_cases hc : c
  · rw [if_pos hc]
    exact hA
  · rw [if_neg hc]
    exact hB

/-- A successful `consume` records the consumed token (of the requested
type) as `previous`. -/
theorem consume_post {tt : TokenType} {s : PState} {tok : Token}
    {s' : PState} (h : consume tt s = (.ok tok, s')) :
    s'.previous = some tok ∧ tok.token_type = tt := by
  unfold consume at h
  by_cases hc : checkB tt s
  · rw [if_pos hc] at h
    cases hcur : s.current with
    | none =>
        exfalso
        unfold checkB at hc
        rw [hcur] at hc
        simp at hc
    | some token =>
        rw [hcur] at h
        simp only [] at h
        injection h with h1 h2
        injection h1 with h1
        subst h1
        subst h2
        unfold checkB at hc
        rw [hcur] at hc
        simp at hc
        constructor
        · show s.current = some token
          exact hcur
        · exact hc
  · rw [if_neg hc] at h
    injection h with h1 h2
    injection h1

/-- A `false` result of `token_match` leaves the state unchanged. -/
theorem token_match_false {tts : List TokenType} {s s' : PState}
    (h : token_match tts s = (.ok false, s')) : s' = s := by
  unfold token_match at h
  cases hcur : s.current with
  | none =>
      rw [hcur] at h
      simp only [] at h
      injection h with h1 h2
      exact h2.symm
  | some token =>
      rw [hcur] at h
      simp only [] at h
      by_cases hmem : token.token_type ∈ tts
      · rw [if_pos hmem] at h
        injection h with h1 h2
        injection h1 with h1
        simp at h1
      · rw [if_neg hmem] at h
        injection h with h1 h2
        exact h2.symm

/-- The post-condition comes from the continuation of a bind. -/
theorem postP_bind {α β : Type} {ma : PM α} {f : α → PM β}
    (hf : ∀ a, PostP (f a)) : PostP (ma >>= f) := by
  intro s a s' h
  rw [PM_bind_eq] at h
  cases hr : ma s with
  | mk r1 s1 =>
      rw [hr] at h
      cases r1 with
      | ok b =>
          simp only [] at h
          exact hf b s1 a s' h
      | error e =>
          simp only [] at h
          injection h with h1 h2
          injection h1

/-- The post-condition holds for an `if` when it holds for both
branches. -/
theorem postP_ite {α : Type} (c : Prop) [Decidable c] {A B : PM α}
    (hA : PostP A) (hB : PostP B) : PostP (if c then A else B) := by
  by_cases hc : c
  · rw [if_pos hc]
    exact hA
  · rw [if_neg hc]
    exact hB

/-- `fuelError` never succeeds, so the post-condition holds vacuously. -/
theorem postP_fuelError {α : Type} : PostP (fuelError : PM α) := by
  intro s a s' h
  injection h with h1 h2
  injection h1

/-- Mapping a pure function over a result keeps the post-condition. -/
theorem postP_map {α β : Type} {ma : PM α} (hma : PostP ma) (g : α → β) :
    PostP (ma >>= fun a => pure (g a)) := by
  intro s b s' h
  rw [PM_bind_eq] at h
  cases hr : ma s with
  | mk r1 s1 =>
      rw [hr] at h
      cases r1 with
      | ok a =>
          simp only [] at h
          injection h with h1 h2
          subst h2
          exact hma s a s1 hr
      | error e =>
          simp only [] at h
          injection h with h1 h2
          injection h1

/-- Ending in `consume Semicolon` / `consume RightBrace` followed by a
`pure` establishes the post-condition. -/
theorem postP_consume_then {tt : TokenType}
    (htt : tt = TokenType.Semicolon ∨ tt = TokenType.RightBrace)
    {β : Type} (k : Token → β) :
    PostP (consume tt >>= fun t => pure (k t)) := by
  intro s b s' h
  rw [PM_bind_eq] at h
  cases hr : consume tt s with
  | mk r1 s1 =>
      rw [hr] at h
      cases r1 with
      | ok tok =>
          simp only [] at h
          injection h with h1 h2
          subst h2
          obtain ⟨hprev, htyp⟩ := consume_post hr
          refine ⟨tok, hprev, ?_⟩
          rcases htt with h' | h'
          · exact Or.inl (h' ▸ htyp)
          · exact Or.inr (h' ▸ htyp)
      | error e =>
          simp only [] at h
          injection h with h1 h2
          injection h1

end Parser


namespace Parser

set_option maxHeartbeats 2000000 in
/-- Every parser function preserves the bounded-cursor invariant: no
call site matches or consumes an `Eof`-typed token, so the cursor never
moves past the final `Eof` at index `n`. -/
theorem parser_pres (ts : List Token) (n : Nat) (hts : EofLast ts n) :
    ∀ fuel : Nat,
      PresP ts n (declaration fuel) ∧
      PresP ts n (var_declaration fuel) ∧
      PresP ts n (statement fuel) ∧
      PresP ts n (for_statement fuel) ∧
      PresP ts n (if_statement fuel) ∧
      PresP ts n (while_statement fuel) ∧
      (∀ acc, PresP ts n (blockLoop fuel acc)) ∧
      PresP ts n (block fuel) ∧
      PresP ts n (print_statement fuel) ∧
      PresP ts n (expression_statement fuel) ∧
      PresP ts n (expression fuel) ∧
      PresP ts n (assignment fuel) ∧
      PresP ts n (Parser.or fuel) ∧
      (∀ e, PresP ts n (orLoop fuel e)) ∧
      PresP ts n (Parser.and fuel) ∧
      (∀ e, PresP ts n (andLoop fuel e)) ∧
      PresP ts n (equality fuel) ∧
      (∀ e, PresP ts n (equalityLoop fuel e)) ∧
      PresP ts n (comparison fuel) ∧
      (∀ e, PresP ts n (comparisonLoop fuel e)) ∧
      PresP ts n (addition fuel) ∧
      (∀ e, PresP ts n (additionLoop fuel e)) ∧
      PresP ts n (multiplication fuel) ∧
      (∀ e, PresP ts n (multiplicationLoop fuel e)) ∧
      PresP ts n (unary fuel) ∧
      PresP ts n (primary fuel) := by
  intro fuel
  induction fuel with
  | zero =>
      exact ⟨pres_fuelError, pres_fuelError, pres_fuelError, pres_fuelError,
        pres_fuelError, pres_fuelError, fun _ => pres_fuelError,
        pres_fuelError, pres_fuelError, pres_fuelError, pres_fuelError,
        pres_fuelError, pres_fuelError, fun _ => pres_fuelError,
        pres_fuelError, fun _ => pres_fuelError, pres_fuelError,
        fun _ => pres_fuelError, pres_fuelError, fun _ => pres_fuelError,
        pres_fuelError, fun _ => pres_fuelError, pres_fuelError,
        fun _ => pres_fuelError, pres_fuelError, pres_fuelError⟩
  | succ fuel ih =>
      obtain ⟨ih_decl, ih_var, ih_stmt, ih_for, ih_if, ih_while, ih_bloop,
        ih_block, ih_print, ih_exprstmt, ih_expr, ih_assign, ih_or, ih_orL,
        ih_and, ih_andL, ih_eq, ih_eqL, ih_cmp, ih_cmpL, ih_add, ih_addL,
        ih_mul, ih_mulL, ih_un, ih_prim⟩ := ih
      refine ⟨?_, ?_, ?_, ?_, ?_, ?_, ?_, ?_, ?_, ?_, ?_, ?_, ?_, ?_, ?_,
        ?_, ?_, ?_, ?_, ?_, ?_, ?_, ?_, ?_, ?_, ?_⟩
      · unfold declaration
        exact presP_bind (pres_token_match hts (by decide)) fun m =>
          presP_ite _ ih_var ih_stmt
      · unfold var_declaration
        exact presP_bind (pres_consume hts (by decide)) fun name =>
          presP_bind (pres_token_match hts (by decide)) fun m =>
          presP_ite _
            (presP_bind ih_expr fun e =>
              presP_bind (pres_pure _) fun y => presP_bind (pres_consume hts (by decide)) fun x => pres_pure _)
            (presP_bind (pres_pure _) fun y => presP_bind (pres_consume hts (by decide)) fun x => pres_pure _)
      · unfold statement
        exact presP_bind (pres_token_match hts (by decide)) fun m =>
          presP_ite _ ih_for
          (presP_bind (pres_token_match hts (by decide)) fun m =>
          presP_ite _ ih_if
          (presP_bind (pres_token_match hts (by decide)) fun m =>
          presP_ite _ ih_print
          (presP_bind (pres_token_match hts (by decide)) fun m =>
          presP_ite _ ih_while
          (presP_bind (pres_token_match hts (by decide)) fun m =>
          presP_ite _ (presP_bind ih_block fun stmts => pres_pure _)
            ih_exprstmt))))
      · unfold for_statement
        exact presP_bind (pres_consume hts (by decide)) fun x0 =>
          presP_bind (pres_token_match hts (by decide)) fun m =>
          presP_ite _
            (presP_bind (pres_pure _) fun y1 => presP_bind (pres_checkM _) fun chk => presP_ite _ (presP_bind ih_expr fun y2 => presP_bind (pres_consume hts (by decide)) fun x2 => presP_bind (pres_checkM _) fun chk2 => presP_ite _ (presP_bind ih_expr fun e => presP_bind (pres_pure _) fun y3 => presP_bind (pres_consume hts (by decide)) fun x3 => presP_bind ih_stmt fun body => pres_pure _) (presP_bind (pres_pure _) fun y3 => presP_bind (pres_consume hts (by decide)) fun x3 => presP_bind ih_stmt fun body => pres_pure _)) (presP_bind (pres_pure _) fun y2 => presP_bind (pres_consume hts (by decide)) fun x2 => presP_bind (pres_checkM _) fun chk2 => presP_ite _ (presP_bind ih_expr fun e => presP_bind (pres_pure _) fun y3 => presP_bind (pres_consume hts (by decide)) fun x3 => presP_bind ih_stmt fun body => pres_pure _) (presP_bind (pres_pure _) fun y3 => presP_bind (pres_consume hts (by decide)) fun x3 => presP_bind ih_stmt fun body => pres_pure _)))
            (presP_bind (pres_token_match hts (by decide)) fun mv =>
              presP_ite _
                (presP_bind ih_var fun d =>
                  presP_bind (pres_pure _) fun y1 => presP_bind (pres_checkM _) fun chk => presP_ite _ (presP_bind ih_expr fun y2 => presP_bind (pres_consume hts (by decide)) fun x2 => presP_bind (pres_checkM _) fun chk2 => presP_ite _ (presP_bind ih_expr fun e => presP_bind (pres_pure _) fun y3 => presP_bind (pres_consume hts (by decide)) fun x3 => presP_bind ih_stmt fun body => pres_pure _) (presP_bind (pres_pure _) fun y3 => presP_bind (pres_consume hts (by decide)) fun x3 => presP_bind ih_stmt fun body => pres_pure _)) (presP_bind (pres_pure _) fun y2 => presP_bind (pres_consume hts (by decide)) fun x2 => presP_bind (pres_checkM _) fun chk2 => presP_ite _ (presP_bind ih_expr fun e => presP_bind (pres_pure _) fun y3 => presP_bind (pres_consume hts (by decide)) fun x3 => presP_bind ih_stmt fun body => pres_pure _) (presP_bind (pres_pure _) fun y3 => presP_bind (pres_consume hts (by decide)) fun x3 => presP_bind ih_stmt fun body => pres_pure _)))
                (presP_bind ih_exprstmt fun d =>
                  presP_bind (pres_pure _) fun y1 => presP_bind (pres_checkM _) fun chk => presP_ite _ (presP_bind ih_expr fun y2 => presP_bind (pres_consume hts (by decide)) fun x2 => presP_bind (pres_checkM _) fun chk2 => presP_ite _ (presP_bind ih_expr fun e => presP_bind (pres_pure _) fun y3 => presP_bind (pres_consume hts (by decide)) fun x3 => presP_bind ih_stmt fun body => pres_pure _) (presP_bind (pres_pure _) fun y3 => presP_bind (pres_consume hts (by decide)) fun x3 => presP_bind ih_stmt fun body => pres_pure _)) (presP_bind (pres_pure _) fun y2 => presP_bind (pres_consume hts (by decide)) fun x2 => presP_bind (pres_checkM _) fun chk2 => presP_ite _ (presP_bind ih_expr fun e => presP_bind (pres_pure _) fun y3 => presP_bind (pres_consume hts (by decide)) fun x3 => presP_bind ih_stmt fun body => pres_pure _) (presP_bind (pres_pure _) fun y3 => presP_bind (pres_consume hts (by decide)) fun x3 => presP_bind ih_stmt fun body => pres_pure _))))
      · unfold if_statement
        exact presP_bind (pres_consume hts (by decide)) fun x0 =>
          presP_bind ih_expr fun condition =>
          presP_bind (pres_consume hts (by decide)) fun x1 =>
          presP_bind ih_stmt fun then_branch =>
          presP_bind (pres_token_match hts (by decide)) fun m =>
          presP_ite _
            (presP_bind ih_stmt fun st =>
              presP_bind (pres_pure _) fun y => pres_pure _)
            (presP_bind (pres_pure _) fun y => pres_pure _)
      · unfold while_statement
        exact presP_bind (pres_consume hts (by decide)) fun _ =>
          presP_bind ih_expr fun condition =>
          presP_bind (pres_consume hts (by decide)) fun _ =>
          presP_bind ih_stmt fun body => pres_pure _
      · intro acc
        intro s r s' hs h
        unfold blockLoop at h
        split at h
        · exact presP_bind ih_decl (fun d => ih_bloop (acc ++ [d])) s r s' hs h
        · injection h with h1 h2
          subst h2
          exact hs
      · unfold block
        exact presP_bind (ih_bloop []) fun statements =>
          presP_bind (pres_consume hts (by decide)) fun _ => pres_pure _
      · unfold print_statement
        exact presP_bind ih_expr fun value =>
          presP_bind (pres_consume hts (by decide)) fun _ => pres_pure _
      · unfold expression_statement
        exact presP_bind ih_expr fun value =>
          presP_bind (pres_consume hts (by decide)) fun _ => pres_pure _
      · unfold expression
        exact ih_assign
      · unfold assignment
        exact presP_bind ih_or fun expr =>
          presP_bind (pres_token_match hts (by decide)) fun m =>
          presP_ite _ (presP_bind ih_assign fun value => by
            cases expr <;> first
              | exact pres_pure _
              | exact pres_throwP _) (pres_pure _)
      · unfold Parser.or
        exact presP_bind ih_and fun expr => ih_orL expr
      · intro e
        unfold orLoop
        exact presP_bind (pres_token_match hts (by decide)) fun m =>
          presP_ite _ (presP_bind ih_and fun right => ih_orL _) (pres_pure _)
      · unfold Parser.and
        exact presP_bind ih_eq fun expr => ih_andL expr
      · intro e
        unfold andLoop
        exact presP_bind (pres_token_match hts (by decide)) fun m =>
          presP_ite _ (presP_bind ih_eq fun right => ih_andL _) (pres_pure _)
      · unfold equality
        exact presP_bind ih_cmp fun expr => ih_eqL expr
      · intro e
        unfold equalityLoop
        exact presP_bind (pres_token_match hts (by decide)) fun m =>
          presP_ite _ (presP_bind pres_previous_token fun op =>
            presP_bind ih_cmp fun right => ih_eqL _) (pres_pure _)
      · unfold comparison
        exact presP_bind ih_add fun expr => ih_cmpL expr
      · intro e
        unfold comparisonLoop
        exact presP_bind (pres_token_match hts (by decide)) fun m =>
          presP_ite _ (presP_bind pres_previous_token fun op =>
            presP_bind ih_add fun right => ih_cmpL _) (pres_pure _)
      · unfold addition
        exact presP_bind ih_mul fun expr => ih_addL expr
      · intro e
        unfold additionLoop
        exact presP_bind (pres_token_match hts (by decide)) fun m =>
          presP_ite _ (presP_bind pres_previous_token fun op =>
            presP_bind ih_mul fun right => ih_addL _) (pres_pure _)
      · unfold multiplication
        exact presP_bind ih_un fun expr => ih_mulL expr
      · intro e
        unfold multiplicationLoop
        exact presP_bind (pres_token_match hts (by decide)) fun m =>
          presP_ite _ (presP_bind pres_previous_token fun op =>
            presP_bind ih_un fun right => ih_mulL _) (pres_pure _)
      · unfold unary
        exact presP_bind (pres_token_match hts (by decide)) fun m =>
          presP_ite _ (presP_bind pres_previous_token fun op =>
            presP_bind ih_un fun right => pres_pure _) ih_prim
      · unfold primary
        exact presP_bind (pres_token_match hts (by decide)) fun m =>
          presP_ite _ (pres_pure _)
          (presP_bind (pres_token_match hts (by decide)) fun m =>
          presP_ite _ (pres_pure _)
          (presP_bind (pres_token_match hts (by decide)) fun m =>
          presP_ite _ (pres_fromPrevious _)
          (presP_bind (pres_token_match hts (by decide)) fun m =>
          presP_ite _ (pres_fromPrevious _)
          (presP_bind (pres_token_match hts (by decide)) fun m =>
          presP_ite _ (pres_fromPrevious _)
          (presP_bind (pres_token_match hts (by decide)) fun m =>
          presP_ite _ (pres_fromPrevious _)
          (presP_bind (pres_token_match hts (by decide)) fun m =>
          presP_ite _
            (presP_bind ih_expr fun e =>
              presP_bind (pres_consume hts (by decide)) fun _ => pres_pure _)
            (pres_throwP _)))))))

end Parser


namespace Parser

set_option maxHeartbeats 2000000 in
/-- Every statement-level parser function, on success, has just
consumed a `Semicolon` or a `RightBrace`: each completed statement ends
in `consume(Semicolon)`, `consume(RightBrace)`, or a recursive
statement. -/
theorem parser_post : ∀ fuel : Nat,
    PostP (declaration fuel) ∧ PostP (var_declaration fuel) ∧
    PostP (statement fuel) ∧ PostP (for_statement fuel) ∧
    PostP (if_statement fuel) ∧ PostP (while_statement fuel) ∧
    PostP (block fuel) ∧ PostP (print_statement fuel) ∧
    PostP (expression_statement fuel) := by
  intro fuel
  induction fuel with
  | zero =>
      exact ⟨postP_fuelError, postP_fuelError, postP_fuelError,
        postP_fuelError, postP_fuelError, postP_fuelError, postP_fuelError,
        postP_fuelError, postP_fuelError⟩
  | succ fuel ih =>
      obtain ⟨ihd, ihv, ihs, ihf, ihi, ihw, ihb, ihp, ihe⟩ := ih
      refine ⟨?_, ?_, ?_, ?_, ?_, ?_, ?_, ?_, ?_⟩
      · unfold declaration
        exact postP_bind fun m => postP_ite _ ihv ihs
      · unfold var_declaration
        exact postP_bind fun name => postP_bind fun m =>
          postP_ite _
            (postP_bind fun e => postP_bind fun y =>
              postP_consume_then (Or.inl rfl) _)
            (postP_bind fun y => postP_consume_then (Or.inl rfl) _)
      · unfold statement
        exact postP_bind fun m => postP_ite _ ihf
          (postP_bind fun m => postP_ite _ ihi
          (postP_bind fun m => postP_ite _ ihp
          (postP_bind fun m => postP_ite _ ihw
          (postP_bind fun m => postP_ite _ (postP_map ihb _) ihe))))
      · unfold for_statement
        exact postP_bind fun x0 => postP_bind fun m =>
          postP_ite _
            (postP_bind fun y1 => postP_bind fun chk => postP_ite _ (postP_bind fun y2 => postP_bind fun x2 => postP_bind fun chk2 => postP_ite _ (postP_bind fun e => postP_bind fun y3 => postP_bind fun x3 => postP_map ihs _) (postP_bind fun y3 => postP_bind fun x3 => postP_map ihs _)) (postP_bind fun y2 => postP_bind fun x2 => postP_bind fun chk2 => postP_ite _ (postP_bind fun e => postP_bind fun y3 => postP_bind fun x3 => postP_map ihs _) (postP_bind fun y3 => postP_bind fun x3 => postP_map ihs _)))
            (postP_bind fun mv => postP_ite _
              (postP_bind fun d => postP_bind fun y1 => postP_bind fun chk => postP_ite _ (postP_bind fun y2 => postP_bind fun x2 => postP_bind fun chk2 => postP_ite _ (postP_bind fun e => postP_bind fun y3 => postP_bind fun x3 => postP_map ihs _) (postP_bind fun y3 => postP_bind fun x3 => postP_map ihs _)) (postP_bind fun y2 => postP_bind fun x2 => postP_bind fun chk2 => postP_ite _ (postP_bind fun e => postP_bind fun y3 => postP_bind fun x3 => postP_map ihs _) (postP_bind fun y3 => postP_bind fun x3 => postP_map ihs _)))
              (postP_bind fun d => postP_bind fun y1 => postP_bind fun chk => postP_ite _ (postP_bind fun y2 => postP_bind fun x2 => postP_bind fun chk2 => postP_ite _ (postP_bind fun e => postP_bind fun y3 => postP_bind fun x3 => postP_map ihs _) (postP_bind fun y3 => postP_bind fun x3 => postP_map ihs _)) (postP_bind fun y2 => postP_bind fun x2 => postP_bind fun chk2 => postP_ite _ (postP_bind fun e => postP_bind fun y3 => postP_bind fun x3 => postP_map ihs _) (postP_bind fun y3 => postP_bind fun x3 => postP_map ihs _))))
      · unfold if_statement
        intro s a s' h
        rw [PM_bind_eq] at h
        cases h1 : consume TokenType.LeftParen s with
        | mk r1 s1 =>
          rw [h1] at h
          cases r1 with
          | error e =>
              simp only [] at h
              injection h with ha hb
              injection ha
          | ok v1 =>
            simp only [] at h
            rw [PM_bind_eq] at h
            cases h2 : expression fuel s1 with
            | mk r2 s2 =>
              rw [h2] at h
              cases r2 with
              | error e =>
                  simp only [] at h
                  injection h with ha hb
                  injection ha
              | ok cond =>
                simp only [] at h
                rw [PM_bind_eq] at h
                cases h3 : consume TokenType.RightParen s2 with
                | mk r3 s3 =>
                  rw [h3] at h
                  cases r3 with
                  | error e =>
                      simp only [] at h
                      injection h with ha hb
                      injection ha
                  | ok v3 =>
                    simp only [] at h
                    rw [PM_bind_eq] at h
                    cases h4 : statement fuel s3 with
                    | mk r4 s4 =>
                      rw [h4] at h
                      cases r4 with
                      | error e =>
                          simp only [] at h
                          injection h with ha hb
                          injection ha
                      | ok tb =>
                        simp only [] at h
                        rw [PM_bind_eq] at h
                        cases h5 : token_match [TokenType.Else] s4 with
                        | mk r5 s5 =>
                          rw [h5] at h
                          cases r5 with
                          | error e =>
                              simp only [] at h
                              injection h with ha hb
                              injection ha
                          | ok m =>
                            simp only [] at h
                            cases m with
                            | true =>
                                rw [if_pos rfl] at h
                                rw [PM_bind_eq] at h
                                cases h6 : statement fuel s5 with
                                | mk r6 s6 =>
                                  rw [h6] at h
                                  cases r6 with
                                  | error e =>
                                      simp only [] at h
                                      injection h with ha hb
                                      injection ha
                                  | ok st =>
                                    simp only [] at h
                                    injection h with ha hb
                                    subst hb
                                    exact ihs s5 st s6 h6
                            | false =>
                                rw [if_neg] at h
                                · injection h with ha hb
                                  subst hb
                                  have h54 : s5 = s4 := token_match_false h5
                                  rw [h54]
                                  exact ihs s3 tb s4 h4
                                · simp
      · unfold while_statement
        exact postP_bind fun x0 => postP_bind fun cond =>
          postP_bind fun x1 => postP_map ihs _
      · unfold block
        exact postP_bind fun statements => postP_consume_then (Or.inr rfl) _
      · unfold print_statement
        exact postP_bind fun value => postP_consume_then (Or.inl rfl) _
      · unfold expression_statement
        exact postP_bind fun value => postP_consume_then (Or.inl rfl) _

/-- A successful run of the parse loop ends at `Eof` with the cursor
invariant intact, and — unless it did nothing at all — its last
consumed token a `Semicolon` or `RightBrace`. -/
theorem parseLoop_spec (ts : List Token) (n : Nat) (hts : EofLast ts n) :
    ∀ fuel acc s res sF,
      InvP ts n s → parseLoop fuel acc s = (.ok res, sF) →
      InvP ts n sF ∧ isAtEndB sF = true ∧
        (sF = s ∨ ∃ p, sF.previous = some p ∧
          (p.token_type = TokenType.Semicolon ∨
            p.token_type = TokenType.RightBrace)) := by
  intro fuel
  induction fuel with
  | zero =>
      intro acc s res sF hs h
      injection h with h1 h2
      injection h1
  | succ fuel ih =>
      intro acc s res sF hs h
      unfold parseLoop at h
      split at h
      · next hend =>
          injection h with h1 h2
          subst h2
          exact ⟨hs, hend, Or.inl rfl⟩
      · next hend =>
          rw [PM_bind_eq] at h
          cases hd : declaration fuel s with
          | mk r1 s1 =>
              rw [hd] at h
              cases r1 with
              | error e =>
                  simp only [] at h
                  injection h with h1 h2
                  injection h1
              | ok d =>
                  simp only [] at h
                  have hinv1 : InvP ts n s1 :=
                    (parser_pres ts n hts fuel).1 s (.ok d) s1 hs hd
                  obtain ⟨hinvF, hendF, hOr⟩ := ih (acc ++ [d]) s1 res sF hinv1 h
                  refine ⟨hinvF, hendF, Or.inr ?_⟩
                  rcases hOr with heq | hpost
                  · subst heq
                    exact (parser_post fuel).1 s d sF hd
                  · exact hpost

end Parser


/-- The token-list shape left by a scan that ended in an unterminated
string: some `Eof`-free prefix, then the trailing `Str` token, then the
single final `Eof`. -/
theorem eofLast_of_shape (body : List Token) (strTok eofTok : Token)
    (hstr : strTok.token_type = TokenType.Str)
    (heof : eofTok.token_type = TokenType.Eof)
    (hbody : ∀ t ∈ body, t.token_type ≠ TokenType.Eof) :
    Parser.EofLast (body ++ [strTok, eofTok]) (body.length + 1) := by
  refine ⟨by simp, ?_⟩
  intro k t hk
  by_cases h1 : k < body.length
  · rw [List.getElem?_append_left h1] at hk
    have ht : t ∈ body := List.getElem?_mem hk
    constructor
    · intro he
      exact absurd he (hbody t ht)
    · intro hke
      omega
  · push_neg at h1
    rw [List.getElem?_append_right h1] at hk
    rcases Nat.lt_or_ge k (body.length + 1) with h2 | h2
    · have hkb : k - body.length = 0 := by omega
      rw [hkb] at hk
      rw [show ([strTok, eofTok] : List Token)[0]? = some strTok from rfl] at hk
      injection hk with hk
      subst hk
      constructor
      · intro he
        rw [hstr] at he
        exact absurd he (by decide)
      · intro hke
        omega
    · rcases Nat.lt_or_ge k (body.length + 2) with h3 | h3
      · have hkb : k - body.length = 1 := by omega
        rw [hkb] at hk
        rw [show ([strTok, eofTok] : List Token)[1]? = some eofTok from rfl] at hk
        injection hk with hk
        subst hk
        constructor
        · intro _
          omega
        · intro _
          exact heof
      · exfalso
        have hnone : ([strTok, eofTok] : List Token)[k - body.length]? = none := by
          apply List.getElem?_eq_none
          simp
          omega
        rw [hnone] at hk
        cases hk

/-- Parsing any token list that ends with a `Str` token directly before
the single final `Eof` fails: a successful parse would have to stop at
the `Eof` having just consumed a `Semicolon` or `RightBrace`, but the
token before `Eof` is the `Str`. -/
theorem parse_fails_at_trailing_str (body : List Token)
    (strTok eofTok : Token)
    (hstr : strTok.token_type = TokenType.Str)
    (heof : eofTok.token_type = TokenType.Eof)
    (hbody : ∀ t ∈ body, t.token_type ≠ TokenType.Eof) :
    ∀ fuel, exceptIsOk
      (Parser.parseTokens fuel (body ++ [strTok, eofTok])) = false := by
  intro fuel
  cases hres : Parser.parseTokens fuel (body ++ [strTok, eofTok]) with
  | error e => rfl
  | ok prog =>
      exfalso
      unfold Parser.parseTokens Parser.parse at hres
      cases hp : Parser.parseLoop fuel []
          (Parser.advState (Parser.initPState (body ++ [strTok, eofTok]))) with
      | mk r sF =>
          rw [hp] at hres
          simp only [] at hres
          subst hres
          have hn : Parser.EofLast (body ++ [strTok, eofTok])
              (body.length + 1) :=
            eofLast_of_shape body strTok eofTok hstr heof hbody
          have hinv0 : Parser.InvP (body ++ [strTok, eofTok])
              (body.length + 1)
              (Parser.advState
                (Parser.initPState (body ++ [strTok, eofTok]))) := by
            refine ⟨0, Nat.zero_le _, ?_, ?_, Or.inl ⟨rfl, rfl⟩⟩
            · show (body ++ [strTok, eofTok]).head? = _
              exact List.head?_eq_getElem? _
            · show (body ++ [strTok, eofTok]).tail = _
              exact (List.drop_one _).symm
          obtain ⟨hinvF, hendF, hOr⟩ :=
            Parser.parseLoop_spec (body ++ [strTok, eofTok])
              (body.length + 1) hn fuel []
              (Parser.advState (Parser.initPState (body ++ [strTok, eofTok])))
              prog sF hinv0 hp
          have hc0 : ∃ t0,
              (Parser.advState
                (Parser.initPState (body ++ [strTok, eofTok]))).current =
                some t0 ∧ t0.token_type ≠ TokenType.Eof := by
            cases body with
            | nil =>
                refine ⟨strTok, rfl, ?_⟩
                intro he
                rw [hstr] at he
                exact absurd he (by decide)
            | cons b bs =>
                exact ⟨b, rfl, hbody b (List.mem_cons_self b bs)⟩
          have hstart : Parser.isAtEndB
              (Parser.advState
                (Parser.initPState (body ++ [strTok, eofTok]))) = false := by
            obtain ⟨t0, hcur0, hne0⟩ := hc0
            unfold Parser.isAtEndB
            rw [hcur0]
            simp [hne0]
          rcases hOr with heq | ⟨p, hprev, hptype⟩
          · rw [heq, hstart] at hendF
            exact Bool.false_ne_true hendF
          · obtain ⟨i, hi, hcurF, hrestF, hprevF⟩ := hinvF
            have hilen : i < (body ++ [strTok, eofTok]).length := by
              simp
              omega
            have hsome : ∃ tok,
                (body ++ [strTok, eofTok])[i]? = some tok := by
              rw [List.getElem?_eq_getElem hilen]
              exact ⟨_, rfl⟩
            obtain ⟨tok, htok⟩ := hsome
            have hteof : tok.token_type = TokenType.Eof := by
              unfold Parser.isAtEndB at hendF
              rw [hcurF, htok] at hendF
              simpa using hendF
            have hieq : i = body.length + 1 := (hn.2 i tok htok).mp hteof
            rcases hprevF with ⟨hi0, _⟩ | ⟨hipos, hprevF⟩
            · omega
            · rw [hieq] at hprevF
              have hstri : (body ++ [strTok, eofTok])[body.length + 1 - 1]? =
                  some strTok := by
                have h1 : body.length + 1 - 1 = body.length := by omega
                rw [h1]
                rw [List.getElem?_append_right (le_refl _)]
                simp
              rw [hstri] at hprevF
              rw [hprev] at hprevF
              injection hprevF with hps
              rw [hps] at hptype
              rcases hptype with h' | h' <;> rw [hstr] at h' <;>
                exact absurd h' (by decide)

/-- C7: a source whose final string literal is unterminated scans to a
token stream whose trailing `Str` token (holding the unterminated
lexeme) sits directly before the single final `Eof` — `consume_string`
runs to end of input, so nothing follows the string. Parsing that
stream fails at every fuel: the problem surfaces as a parse error and
never as a successfully parsed program containing the unterminated
string value. -/
theorem unterminated_string_parse_fails
    (source : String) (fuel : Nat) (body : List Token)
    (strTok eofTok : Token)
    (hshape : filterTrivia (Scanner.scan_tokens source) =
      body ++ [strTok, eofTok])
    (hstr : strTok.token_type = TokenType.Str)
    (_hunterm : strUnterminated strTok.lexeme)
    (heof : eofTok.token_type = TokenType.Eof)
    (hbody : ∀ t ∈ body, t.token_type ≠ TokenType.Eof) :
    exceptIsOk (Parser.parseTokens fuel
      (filterTrivia (Scanner.scan_tokens source))) = false := by
  rw [hshape]
  exact parse_fails_at_trailing_str body strTok eofTok hstr heof hbody fuel

/-- Witness for C7 at the source `print "abc`: its trivia-filtered scan
is `print`, the unterminated string token, `Eof`, and the parse fails. -/
theorem unterminated_string_parse_fails_witness :
    filterTrivia (Scanner.scan_tokens "print \"abc") =
      [{ token_type := TokenType.Print, lexeme := "print",
         line_number := 1, column_number := 0 }] ++
      [{ token_type := TokenType.Str, lexeme := "\"abc",
         line_number := 1, column_number := 7 },
       { token_type := TokenType.Eof, lexeme := "",
         line_number := 1, column_number := 12 }] ∧
    strUnterminated "\"abc" ∧
    exceptIsOk (Parser.parseTokens 50
      (filterTrivia (Scanner.scan_tokens "print \"abc"))) = false :=
  ⟨by decide, by decide,
    unterminated_string_parse_fails "print \"abc" 50
      [{ token_type := TokenType.Print, lexeme := "print",
         line_number := 1, column_number := 0 }]
      { token_type := TokenType.Str, lexeme := "\"abc",
        line_number := 1, column_number := 7 }
      { token_type := TokenType.Eof, lexeme := "",
        line_number := 1, column_number := 12 }
      (by decide) (by decide) (by decide) (by decide) (by decide)⟩

end Crafty
